import Mathlib

/-!
# Verification of the fiscal-aggregation pipeline (`apuracao.py`)

This file is a shallow embedding, in Lean 4, of the core aggregation
pipeline of the repository: the column resolver (`normalize_colname`,
`find_best_column`), the Brazilian-currency parser
(`parse_valor_brasileiro`), and the streaming chunk-wise join and
aggregation loop of `process_from_postgres`, together with theorems that
settle the frozen claims about that code.

Modelling conventions:
* Python/pandas floating point numbers are modelled as exact rationals
  (`ℚ`).  No claim in scope depends on binary rounding; the
  "floating-point tolerance" wording of the spec becomes exact equality.
* A pandas cell is a `Val`: a missing value (`vnull`, standing for
  `NaN`/`None`/`NaT`), a string, a number, or a parsed timestamp
  (`vdate`, of which only year and month are ever consumed).
* A `DataFrame` is a column-name list (order matters for column
  resolution) together with rows of (column-name, value) pairs; cell
  access is first-match lookup, mirroring pandas label lookup.
* `pd.merge(..., how="left")` is modelled faithfully, including row
  multiplication when several right rows share a key and `NaN` keys never
  matching.
* `groupby(col)[v].sum()` is modelled including its dropping of rows
  whose group key is null.
* External library details that no claim exercises are modelled on the
  repertoire the code exercises: `str()` of a non-integral float and
  `pd.to_datetime` are modelled on integers/ISO- and slash-formatted
  dates respectively, with comments at the definitions.
* `raise SystemExit` (and an uncaught exception inside the loop) become
  `Except.error`; file output exists only in the `Except.ok` payload, so
  "no partial output" is "the run returns `.error`".
-/

deriving instance DecidableEq for Except

namespace Apuracao

/-- A pandas cell value: null (`NaN` / `None` / `NaT`), a string, a
numeric (exact rational standing for a Python float/int), or a parsed
timestamp of which the pipeline only ever consumes year and month. -/
inductive Val where
  | vnull : Val
  | vstr : String → Val
  | vnum : ℚ → Val
  | vdate : ℤ → ℕ → Val
deriving DecidableEq

/-! ## Decimal rendering of integers (models Python `str` on `int`) -/

/-- Little-endian base-10 digit list, with structural fuel so that the
kernel can evaluate it (each step divides by 10, so `n` units of fuel
beyond the first always suffice; the fuel-out branch is unreachable). -/
def digsAux : ℕ → ℕ → List ℕ
  | 0, _ => []
  | fuel + 1, n => if n < 10 then [n] else (n % 10) :: digsAux fuel (n / 10)

/-- Little-endian base-10 digit list of a natural number. -/
def digs (n : ℕ) : List ℕ := digsAux (n + 1) n

/-- Decode a little-endian digit list. -/
def undigs : List ℕ → ℕ
  | [] => 0
  | d :: r => d + 10 * undigs r

/-- Digit to character. -/
def dChar : ℕ → Char
  | 0 => '0'
  | 1 => '1'
  | 2 => '2'
  | 3 => '3'
  | 4 => '4'
  | 5 => '5'
  | 6 => '6'
  | 7 => '7'
  | 8 => '8'
  | 9 => '9'
  | _ => '?'

/-- Decimal string of a natural number (Python `str(n)`). -/
def decStr (n : ℕ) : String := ⟨((digs n).reverse).map dChar⟩

/-- Decimal string of an integer (Python `str(i)`). -/
def intStr (i : ℤ) : String :=
  if i < 0 then "-" ++ decStr i.natAbs else decStr i.natAbs

/-- Python `str()` of a cell, as used by `.astype(str)` and the quantity
lambda.  `str(nan) = "nan"`.  Non-integral numerics are rendered as
`num/den`; Python renders a float decimally, but no claim (and no input
in any witness or counterexample below) stringifies a non-integral
numeric, so only the integral case is load-bearing. -/
def pyStr : Val → String
  | .vnull => "nan"
  | .vstr s => s
  | .vnum q => if q.den = 1 then intStr q.num else intStr q.num ++ "/" ++ decStr q.den
  | .vdate y m => intStr y ++ "-" ++ decStr m

/-! ## Character-list string utilities

The Python string operations used by the code (`strip`, `replace`,
substring test) are re-implemented over `List Char` so that every
operation is a plain structural function. -/

/-- Python `s.strip()` (trim surrounding whitespace). -/
def pyStrip (s : String) : String :=
  ⟨(s.toList.dropWhile Char.isWhitespace).reverse.dropWhile Char.isWhitespace |>.reverse⟩

/-- Left-to-right, non-overlapping substring replacement on char lists
(Python `str.replace`), with structural fuel so that the kernel can
evaluate it (every step consumes at least one character, so `l.length`
units of fuel suffice; the fuel-out branch is unreachable). -/
def replaceListAux (pat repl : List Char) : ℕ → List Char → List Char
  | 0, l => l
  | _, [] => []
  | fuel + 1, a :: r =>
    if pat ≠ [] ∧ pat.isPrefixOf (a :: r) then
      repl ++ replaceListAux pat repl fuel ((a :: r).drop pat.length)
    else
      a :: replaceListAux pat repl fuel r

/-- Python `s.replace(pat, repl)`. -/
def strReplace (s pat repl : String) : String :=
  ⟨replaceListAux pat.toList repl.toList s.toList.length s.toList⟩

/-- Python `k in s` (substring containment). -/
def substrB (k s : String) : Bool := decide (k.toList <:+: s.toList)

/-! ## Kernel-computable rational arithmetic

Mathlib's `+`/`*`/`/` on `ℚ` do not reduce inside the kernel, so every
arithmetic step of the embedding uses the following `mkRat`-based
operations.  They are proved equal to the Mathlib operations below
(`qAdd_eq`, `qMul_eq`, `qNeg_eq`), so theorems can still be stated and
proved with ordinary rational arithmetic. -/

/-- Addition on `ℚ` via `mkRat` (kernel-computable). -/
def qAdd (a b : ℚ) : ℚ := mkRat (a.num * b.den + b.num * a.den) (a.den * b.den)

/-- Multiplication on `ℚ` via `mkRat` (kernel-computable). -/
def qMul (a b : ℚ) : ℚ := mkRat (a.num * b.num) (a.den * b.den)

/-- Negation on `ℚ` via `mkRat` (kernel-computable). -/
def qNeg (a : ℚ) : ℚ := mkRat (-a.num) a.den

/-- Sum of a list of rationals (kernel-computable). -/
def qSum (l : List ℚ) : ℚ := l.foldr qAdd 0

/-- `10 ^ ex` on `ℚ` for an integer exponent (kernel-computable). -/
def qpow10 (ex : ℤ) : ℚ :=
  if 0 ≤ ex then mkRat ((10 : ℕ) ^ ex.toNat : ℕ) 1
  else mkRat 1 ((10 : ℕ) ^ (-ex).toNat)

/-! ## Python `float()` on cleaned strings -/

/-- Read an optional sign; `true` means negative. -/
def readSign : List Char → Bool × List Char
  | '-' :: r => (true, r)
  | '+' :: r => (false, r)
  | r => (false, r)

/-- Read a maximal digit run, returning the digit values and the rest. -/
def takeDigits : List Char → List ℕ × List Char
  | [] => ([], [])
  | c :: r =>
    if c.isDigit then
      let p := takeDigits r
      ((c.toNat - 48) :: p.1, p.2)
    else ([], c :: r)

/-- Value of a big-endian digit list. -/
def digitsVal (ds : List ℕ) : ℕ := ds.foldl (fun a d => a * 10 + d) 0

/-- Python `float(s)` on strings without whitespace, underscores or
`inf`/`nan` words (the call sites only ever pass strings over the
alphabet `0-9 + - . , e E`, and a string containing `,` always fails,
as in Python).  Grammar: `[sign] digits [. digits] [(e|E) [sign] digits]`
with at least one mantissa digit and nothing left over; `none` models the
raised `ValueError`. -/
def pyFloat (s : String) : Option ℚ :=
  let p0 := readSign s.toList
  let p1 := takeDigits p0.2
  let ip := p1.1
  let frac : Option (List ℕ) × List Char :=
    match p1.2 with
    | '.' :: r => let p := takeDigits r; (some p.1, p.2)
    | r => (none, r)
  let fp := frac.1
  let rest := frac.2
  if ip = [] ∧ (fp = none ∨ fp = some []) then none
  else
    let mant : ℚ :=
      qAdd (mkRat (digitsVal ip) 1)
        (match fp with
         | some ds => mkRat (digitsVal ds) ((10 : ℕ) ^ ds.length)
         | none => 0)
    let signed : ℚ → ℚ := fun q => if p0.1 then qNeg q else q
    match rest with
    | [] => some (signed mant)
    | e :: r =>
      if e = 'e' ∨ e = 'E' then
        let q0 := readSign r
        let q1 := takeDigits q0.2
        if q1.1 = [] ∨ q1.2 ≠ [] then none
        else
          let ex : ℤ := if q0.1 then -(digitsVal q1.1 : ℤ) else (digitsVal q1.1 : ℤ)
          some (signed (qMul mant (qpow10 ex)))
      else none

/-! ## `parse_valor_brasileiro` -/

/-- The character filter of `re.sub(r"[^\d\-,\.eE+]", "", s)`. -/
def keepNumChar (c : Char) : Bool :=
  c.isDigit || c = '-' || c = ',' || c = '.' || c = 'e' || c = 'E' || c = '+'

/-- Last-resort branch: `re.findall(r"[\d]+", s)` concatenated and parsed
(`"".join` of all digit runs is exactly the digit characters in order). -/
def fallbackDigits (sc : String) : ℚ :=
  let ds := sc.toList.filter Char.isDigit
  if ds = [] then 0 else (pyFloat ⟨ds⟩).getD 0

/-- Direct parse of the cleaned string, falling back to digit
concatenation on failure. -/
def directOr (sc : String) : ℚ :=
  match pyFloat sc with
  | some q => q
  | none => fallbackDigits sc

/-- `parse_valor_brasileiro` from `apuracao.py`: convert a cell to a float,
defaulting to `0.0` instead of failing.  A `vdate` cell is never passed to
it by the pipeline; it takes the string path on its rendering, like any
other non-numeric non-null object. -/
def parse_valor_brasileiro : Val → ℚ
  | .vnull => 0
  | .vnum q => q
  | .vdate y m => directOr ⟨(pyStr (.vdate y m)).toList.filter keepNumChar⟩
  | .vstr v =>
    let s := pyStrip v
    if s = "" then 0
    else
      let s2 := strReplace (strReplace s "R$" "") " " ""
      let sc : String := ⟨s2.toList.filter keepNumChar⟩
      let hasComma := sc.toList.contains ','
      let hasDot := sc.toList.contains '.'
      let br := strReplace (strReplace sc "." "") "," "."
      if hasComma ∧ ¬ hasDot then
        match pyFloat br with
        | some q => q
        | none => directOr sc
      else if hasDot ∧ hasComma then
        match pyFloat br with
        | some q => q
        | none => directOr sc
      else directOr sc

/-! ## `normalize_colname` and `find_best_column` -/

/-- Python `str.lower()` restricted to the repertoire the code meets:
ASCII letters plus the accented letters that `normalize_colname`
substitutes.  (Python lowercases the full Unicode range; only these
characters are ever inspected afterwards.) -/
def pyLower (c : Char) : Char :=
  match c with
  | 'Á' => 'á' | 'À' => 'à' | 'Ã' => 'ã' | 'Â' => 'â'
  | 'É' => 'é' | 'Ê' => 'ê'
  | 'Í' => 'í'
  | 'Ó' => 'ó' | 'Ô' => 'ô' | 'Õ' => 'õ'
  | 'Ú' => 'ú'
  | 'Ç' => 'ç'
  | _ => c.toLower

/-- The chained `str.replace` accent substitutions of `normalize_colname`
(performed after lowering, hence on lowercase letters). -/
def accentFix (c : Char) : Char :=
  match c with
  | 'á' => 'a' | 'à' => 'a' | 'ã' => 'a' | 'â' => 'a'
  | 'é' => 'e' | 'ê' => 'e'
  | 'í' => 'i'
  | 'ó' => 'o' | 'ô' => 'o' | 'õ' => 'o'
  | 'ú' => 'u'
  | 'ç' => 'c'
  | _ => c

/-- A regex word character (`\w`) for the post-substitution repertoire:
ASCII alphanumerics and underscore.  (Python's `\w` also matches further
Unicode letters; after the substitutions above none remain in the
schemas the code handles.) -/
def isWordChar (c : Char) : Bool := c.isAlphanum || c = '_'

/-- Collapse runs of underscores to a single underscore
(`re.sub(r"_+", "_", s)`).  Replacing every non-word character by `_`
first and then collapsing gives the same result as the code's
`re.sub(r"[^\w]+", "_", s)` followed by this collapse. -/
def collapseUnders : List Char → List Char
  | [] => []
  | c :: r =>
    match collapseUnders r with
    | '_' :: t => if c = '_' then '_' :: t else c :: '_' :: t
    | t => c :: t

/-- `normalize_colname` from `apuracao.py`: strip, lowercase, substitute
the listed accents, collapse non-word runs to `_`, collapse `_` runs,
trim `_`.  The `c is None` guard maps to the empty string as in the
code. -/
def normalize_colname (c : String) : String :=
  let s := pyStrip c
  let l := s.toList.map (fun ch => accentFix (pyLower ch))
  let l := l.map (fun ch => if isWordChar ch then ch else '_')
  let l := collapseUnders l
  let l := (l.dropWhile (· = '_')).reverse.dropWhile (· = '_') |>.reverse
  ⟨l⟩

/-- `find_best_column` from `apuracao.py`: first the column whose
normalized name contains all keywords, then (fallback) the first whose
normalized name contains at least one keyword; `none` otherwise.
"First" is first in original column order. -/
def find_best_column (cols : List String) (keywords : List String) : Option String :=
  cols.find? (fun c => keywords.all (fun k => substrB k (normalize_colname c)))
    <|> cols.find? (fun c => keywords.any (fun k => substrB k (normalize_colname c)))

/-! ## DataFrames

A row is an association list from column name to `Val`; lookup is
first-match, mirroring pandas label access.  The column list carries the
column order, which `find_best_column` depends on. -/

/-- A row: (column name, value) pairs. -/
abbrev Row := List (String × Val)

/-- Cell lookup (first matching column label). -/
def getV (r : Row) (c : String) : Val :=
  match r with
  | [] => .vnull
  | p :: t => if p.1 = c then p.2 else getV t c

/-- Does the row carry the column label? -/
def hasV (r : Row) (c : String) : Bool := r.any (fun p => p.1 = c)

/-- Set a column of a row: overwrite every entry with that label, or
append the entry if the label is absent. -/
def setV (r : Row) (c : String) (v : Val) : Row :=
  if hasV r c then r.map (fun p => if p.1 = c then (c, v) else p)
  else r ++ [(c, v)]

/-- Rename row labels. -/
def mapKeys (f : String → String) (r : Row) : Row := r.map (fun p => (f p.1, p.2))

/-- A DataFrame: ordered column names and rows. -/
structure DF where
  cols : List String
  rows : List Row
deriving DecidableEq

/-- `df.rename(columns={old: new})`. -/
def DF.renameCol (df : DF) (old new : String) : DF :=
  ⟨df.cols.map (fun c => if c = old then new else c),
   df.rows.map (mapKeys (fun c => if c = old then new else c))⟩

/-- Rename every column through `normalize_colname` (the per-chunk /
per-table normalization step). -/
def DF.normCols (df : DF) : DF :=
  ⟨df.cols.map normalize_colname, df.rows.map (mapKeys normalize_colname)⟩

/-- Column membership. -/
def DF.hasCol (df : DF) (c : String) : Bool := df.cols.contains c

/-- Assign a column from a per-row function (`df[c] = ...`). -/
def DF.setColF (df : DF) (c : String) (f : Row → Val) : DF :=
  ⟨if df.hasCol c then df.cols else df.cols ++ [c],
   df.rows.map (fun r => setV r c (f r))⟩

/-- Apply a function to a column (`df[c] = df[c].apply(f)`). -/
def DF.applyCol (df : DF) (c : String) (f : Val → Val) : DF :=
  df.setColF c (fun r => f (getV r c))

/-! ## Left merge (pandas `DataFrame.merge(..., how="left")`) -/

/-- The suffix rule of `suffixes=("", "_nota")`: a right column colliding
with a left column gains `_nota`. -/
def suffixRule (leftCols : List String) (c : String) : String :=
  if leftCols.contains c then c ++ "_nota" else c

/-- Right-side columns filled with `NaN` for an unmatched left row. -/
def nullRow (cols : List String) : Row := cols.map (fun c => (c, Val.vnull))

/-- The right-side columns a column merge on `key` carries over (all but
the key, suffixed on collision). -/
def onCols (l : DF) (r : DF) (key : String) : List String :=
  (r.cols.filter (fun c => ¬ (c = key))).map (suffixRule l.cols)

/-- One left row's output rows in a column merge: each matching right
row appended (key column dropped, collisions suffixed), or a single
null-extended row when nothing matches.  A null key never matches. -/
def onContrib (l : DF) (r : DF) (key : String) (lr : Row) : List Row :=
  let ms :=
    if getV lr key = Val.vnull then []
    else r.rows.filter (fun rr => getV rr key = getV lr key)
  match ms with
  | [] => [lr ++ nullRow (onCols l r key)]
  | _ => ms.map (fun rr =>
      lr ++ mapKeys (suffixRule l.cols) (rr.filter (fun p => ¬ (p.1 = key))))

/-- `left.merge(right, on=key, how="left", suffixes=("", "_nota"))`:
every left row is paired with each right row sharing its key (in right
order), or kept once with null right columns when no right row matches.
The shared key column appears once, from the left. -/
def mergeOn (l : DF) (r : DF) (key : String) : DF :=
  ⟨l.cols ++ onCols l r key, l.rows.flatMap (onContrib l r key)⟩

/-- The right-side columns an index merge carries over (all of them,
suffixed on collision). -/
def riCols (l : DF) (r : DF) : List String := r.cols.map (suffixRule l.cols)

/-- One left row's output rows in an index merge: the match is between
the left key cell and the right index labels (`ridx`, parallel to
`r.rows`). -/
def riContrib (l : DF) (r : DF) (key : String) (ridx : List Val) (lr : Row) : List Row :=
  let ms :=
    if getV lr key = Val.vnull then []
    else (r.rows.zip ridx).filter (fun p => p.2 = getV lr key)
  match ms with
  | [] => [lr ++ nullRow (riCols l r)]
  | _ => ms.map (fun p => lr ++ mapKeys (suffixRule l.cols) p.1)

/-- `left.merge(right, left_on=key, right_index=True, how="left",
suffixes=("", "_nota"))`. -/
def mergeRightIndex (l : DF) (key : String) (r : DF) (ridx : List Val) : DF :=
  ⟨l.cols ++ riCols l r, l.rows.flatMap (riContrib l r key ridx)⟩

/-! ## Dates (`pd.to_datetime(..., errors="coerce")`) and month periods -/

/-- Are all characters digits (and the string non-empty)? -/
def allDigits (l : List Char) : Bool := ¬ (l = []) && l.all Char.isDigit

/-- Numeric value of an all-digit string. -/
def natOfDigits (l : List Char) : ℕ := digitsVal (l.map (fun c => c.toNat - 48))

/-- Split a char list on a separator character. -/
def splitChar (sep : Char) : List Char → List (List Char)
  | [] => [[]]
  | a :: r =>
    match splitChar sep r with
    | [] => [[a]]
    | h :: t => if a = sep then [] :: h :: t else (a :: h) :: t

/-- `pd.to_datetime(..., errors="coerce")`, modelled on the date shapes
the datasets use: ISO `YYYY-MM[-DD]` and slash dates `a/b/YYYY` (with
`dayfirst` choosing whether `a` or `b` is the month).  Anything else —
including a missing value — coerces to `NaT` (`vnull`).  Only the year
and month survive, because the pipeline only ever derives a month
period. -/
def parseDate (dayfirst : Bool) (v : Val) : Val :=
  match v with
  | .vdate y m => .vdate y m
  | .vstr s =>
    let t := (pyStrip s).toList
    let dparts := splitChar '-' t
    let sparts := splitChar '/' t
    match dparts with
    | [y, m] =>
      if y.length = 4 ∧ allDigits y ∧ allDigits m ∧ 1 ≤ natOfDigits m ∧ natOfDigits m ≤ 12 then
        .vdate (natOfDigits y) (natOfDigits m)
      else .vnull
    | [y, m, d] =>
      if y.length = 4 ∧ allDigits y ∧ allDigits m ∧ 1 ≤ natOfDigits m ∧ natOfDigits m ≤ 12 ∧
          allDigits d ∧ 1 ≤ natOfDigits d ∧ natOfDigits d ≤ 31 then
        .vdate (natOfDigits y) (natOfDigits m)
      else .vnull
    | _ =>
      match sparts with
      | [a, b, y] =>
        let m := if dayfirst then b else a
        let d := if dayfirst then a else b
        if y.length = 4 ∧ allDigits y ∧ allDigits m ∧ 1 ≤ natOfDigits m ∧ natOfDigits m ≤ 12 ∧
            allDigits d ∧ 1 ≤ natOfDigits d ∧ natOfDigits d ≤ 31 then
          .vdate (natOfDigits y) (natOfDigits m)
        else .vnull
      | _ => .vnull
  | _ => .vnull

/-- `.dt.to_period("M").astype(str)`: `"YYYY-MM"` with zero-padded month
for a parsed timestamp, the literal string `"NaT"` for a null one. -/
def periodStr : Val → String
  | .vdate y m => intStr y ++ "-" ++ (if m < 10 then "0" ++ decStr m else decStr m)
  | _ => "NaT"

/-! ## Group-by sums and dimension buckets -/

/-- The `valor_total_item` cell of a row as a number (`.sum()` over the
float column; after the parse step every cell there is numeric). -/
def toQ : Val → ℚ
  | .vnum q => q
  | _ => 0

/-- A dimension accumulator (`defaultdict(float)`): association list from
dimension value to running sum, in insertion order. -/
abbrev Bucket := List (Val × ℚ)

/-- Add to a bucket entry (creating it at the end if absent) — Python
`bucket[k] += q` on a `defaultdict(float)`. -/
def bAdd : Bucket → Val → ℚ → Bucket
  | [], k, q => [(k, q)]
  | p :: t, k, q => if p.1 = k then (k, qAdd p.2 q) :: t else p :: bAdd t k q

/-- Total of a bucket. -/
def bTotal (b : Bucket) : ℚ := qSum (b.map (fun p => p.2))

/-- Lookup in a bucket. -/
def bLookup (b : Bucket) (k : Val) : Option ℚ :=
  (b.find? (fun p => p.1 = k)).map (fun p => p.2)

/-- `chunk.groupby(c)["valor_total_item"].sum()` as a (key, sum)
association list: rows whose group key is null are dropped, exactly as
pandas drops `NaN` group keys.  (pandas also sorts the group keys; the
order of this list is never observed — only entry-wise folding into a
`defaultdict` and totals are.) -/
def groupbySum (df : DF) (c : String) : List (Val × ℚ) :=
  df.rows.foldl (fun acc r =>
    match getV r c with
    | .vnull => acc
    | k => bAdd acc k (toQ (getV r "valor_total_item"))) []

/-- Fold a group-by result into a running bucket
(`for k, s in ...: bucket[k] += float(s)`). -/
def bFold (b : Bucket) (g : List (Val × ℚ)) : Bucket :=
  g.foldl (fun acc p => bAdd acc p.1 p.2) b

/-- Sum of the `valor_total_item` column (`chunk["valor_total_item"].sum()`). -/
def chunkSum (df : DF) : ℚ := qSum (df.rows.map (fun r => toQ (getV r "valor_total_item")))

/-! ## Run state and configuration -/

/-- `notas_index`: the parent DataFrame plus its pandas index (a list of
labels parallel to the rows) and the index name. -/
structure IDF where
  df : DF
  index : List Val
  iname : Option String
deriving DecidableEq

/-- The accumulator dictionary `accum` (plus the derived summary; the
`generated_at` wall-clock timestamp is not modelled). -/
structure Accum where
  total_rows_itens : ℕ
  faturamento_bruto : ℚ
  icms_estimado : ℚ
  iss_estimado : ℚ
  pis_estimado : ℚ
  cofins_estimado : ℚ
  irpj_estimado : ℚ
  csll_estimado : ℚ
deriving DecidableEq

/-- The four dimension accumulators. -/
structure Pivots where
  mes : Bucket
  uf : Bucket
  cfop : Bucket
  ncm : Bucket
deriving DecidableEq

/-- Mutable state of the chunk loop. -/
structure RunState where
  idx : IDF
  acc : Accum
  piv : Pivots
deriving DecidableEq

/-- The module-level rate/regime configuration (reassigned externally by
the UI between runs, hence a per-run parameter here).  Defaults mirror
the constants of `apuracao.py`. -/
structure Config where
  aliq_icms : ℚ
  aliq_iss : ℚ
  aliq_pis : ℚ
  aliq_cofins : ℚ
  presuncao : ℚ
  aliquota_irpj : ℚ
  aliquota_csll : ℚ
  estimated_margin : ℚ
  estimar_irpj_csll : Bool
  enquadramento : String
deriving DecidableEq

/-- The default configuration constants of `apuracao.py`. -/
def defaultConfig : Config :=
  ⟨mkRat 18 100, mkRat 5 100, mkRat 65 10000, mkRat 3 100,
   mkRat 8 100, mkRat 15 100, mkRat 9 100, mkRat 10 100,
   true, "lucro_presumido"⟩

/-! ## The per-chunk pipeline -/

/-- Key-column resolution (`find_best_column(cols, "chave", "acesso") or
find_best_column(cols, "chave")`), shared by parent and chunks. -/
def keyColResolve (cols : List String) : Option String :=
  find_best_column cols ["chave", "acesso"] <|> find_best_column cols ["chave"]

/-- Chunk amount-column resolution: `valor_total`, then `valor_item`,
then `valor` (lines 220 of `apuracao.py`). -/
def childValorCol (cols : List String) : Option String :=
  find_best_column cols ["valor_total"] <|> find_best_column cols ["valor_item"]
    <|> find_best_column cols ["valor"]

/-- Parent amount-column resolution: the loop over `valor_total`,
`valor`, `valor_nota`, `total`, then the `valor` fallback (lines 157-167
of `apuracao.py`). -/
def notasValorCol (cols : List String) : Option String :=
  (["valor_total", "valor", "valor_nota", "total"].findSome?
      (fun t => find_best_column cols [t]))
    <|> find_best_column cols ["valor"]

/-- The quantity lambda
`float(re.sub(r"[^\d\-\.]", "", str(x)) or 0)`: strip every character
other than digits, `-`, `.` from `str(x)`; an empty result is `0`; a
non-empty unparsable result raises (`none`). -/
def parseQty (v : Val) : Option ℚ :=
  let s : String := ⟨(pyStr v).toList.filter (fun c => c.isDigit || c = '-' || c = '.')⟩
  if s = "" then some 0 else pyFloat s

/-- Normalize the chunk's columns and resolve/rename its key column;
`none` is the "chunk sem coluna de chave" skip. -/
def childKeyed (chunk : DF) : Option DF :=
  let c := chunk.normCols
  match keyColResolve c.cols with
  | none => none
  | some k => some (c.renameCol k "chave_acesso")

/-- Build the per-row `valor_unitario * quantidade` amount column; `none`
if the quantity lambda raises on some row. -/
def buildQtyCol (df : DF) : Option DF :=
  (df.rows.mapM (fun r =>
      (parseQty (getV r "quantidade")).map
        (fun q => qMul (parse_valor_brasileiro (getV r "valor_unitario")) q))).map
    (fun qs =>
      ⟨if df.hasCol "valor_total_item" then df.cols else df.cols ++ ["valor_total_item"],
       (df.rows.zip qs).map (fun p => setV p.1 "valor_total_item" (.vnum p.2))⟩)

/-- The pre-merge part of the chunk loop body (lines 206-231): normalize
columns, resolve/rename the key (skip the chunk if unresolvable),
resolve or build the `valor_total_item` column, and re-parse it.
`ok none` is a skipped chunk; `error` models the uncaught exception from
the quantity lambda. -/
def prepFront (chunk : DF) : Except String (Option DF) :=
  match childKeyed chunk with
  | none => .ok none
  | some c1 =>
    match childValorCol c1.cols with
    | some vcol =>
      .ok (some ((c1.renameCol vcol "valor_total_item").applyCol "valor_total_item"
        (fun v => .vnum (parse_valor_brasileiro v))))
    | none =>
      if c1.hasCol "valor_unitario" ∧ c1.hasCol "quantidade" then
        match buildQtyCol c1 with
        | none => .error "float() raised on a quantidade cell"
        | some c2 =>
          .ok (some (c2.applyCol "valor_total_item" (fun v => .vnum (parse_valor_brasileiro v))))
      else
        .ok (some ((c1.setColF "valor_total_item" (fun _ => .vnum 0)).applyCol "valor_total_item"
          (fun v => .vnum (parse_valor_brasileiro v))))

/-- The pandas positional index after `reset_index(drop=True)` followed
by `.astype(str)`: the row positions as decimal strings. -/
def posIndex (n : ℕ) : List Val := (List.range n).map (fun i => Val.vstr (decStr i))

/-- `chunk["chave_acesso"] = chunk["chave_acesso"].astype(str)` (line
240; performed only on the first processed chunk). -/
def stringifyKey (df : DF) : DF :=
  df.applyCol "chave_acesso" (fun v => .vstr (pyStr v))

/-- The merge step (lines 234-247): on the first processed chunk the
index name is still `"chave_acesso"`, so the parent index is reset to
stringified row positions (destructively — the new `IDF` is the state
for all later chunks), the chunk key is stringified and the join is
against those position strings; on later chunks the join is an ordinary
column merge on `"chave_acesso"`. -/
def mergeStep (idx : IDF) (df : DF) : DF × IDF :=
  if idx.iname = some "chave_acesso" then
    let idx2 : IDF := ⟨idx.df, posIndex idx.df.rows.length, none⟩
    (mergeRightIndex (stringifyKey df) "chave_acesso" idx2.df idx2.index, idx2)
  else
    (mergeOn df idx.df "chave_acesso", idx)

/-- Lines 249-256: parse the emission date — the chunk's own column
first (`dayfirst=True`), else the parent-side merged column, else an
all-`NaT` column. -/
def dimDate (df : DF) : DF :=
  if df.hasCol "data_emissao" then
    df.setColF "data_emissao_parsed" (fun r => parseDate true (getV r "data_emissao"))
  else if df.hasCol "data_emissao_nota" then
    df.setColF "data_emissao_parsed" (fun r => parseDate false (getV r "data_emissao_nota"))
  else df.setColF "data_emissao_parsed" (fun _ => .vnull)

/-- Lines 259-261: resolve and possibly rename the emitter-region
column.  A column found as literally `uf_emit` is left unrenamed (and
hence unused, per the next step) exactly as in the code. -/
def dimUfA (df : DF) : DF :=
  match find_best_column df.cols ["uf_emitente"] <|> find_best_column df.cols ["uf_emit"] with
  | some u =>
    if ¬ (u = "uf_emitente") ∧ ¬ (u = "uf_emit") then df.renameCol u "uf_emitente" else df
  | none => df

/-- Lines 263-264: default the region column to the empty string. -/
def dimUfB (df : DF) : DF :=
  if df.hasCol "uf_emitente" then df else df.setColF "uf_emitente" (fun _ => .vstr "")

/-- Lines 267-269: resolve and possibly rename the CFOP column. -/
def dimCfopA (df : DF) : DF :=
  match find_best_column df.cols ["cfop"] with
  | some c => if ¬ (c = "cfop") then df.renameCol c "cfop" else df
  | none => df

/-- Lines 270-271: default the CFOP column to the empty string. -/
def dimCfopB (df : DF) : DF :=
  if df.hasCol "cfop" then df else df.setColF "cfop" (fun _ => .vstr "")

/-- Lines 267-271. -/
def dimCfop (df : DF) : DF := dimCfopB (dimCfopA df)

/-- Lines 273-275: resolve and possibly rename the NCM column. -/
def dimNcmA (df : DF) : DF :=
  match find_best_column df.cols ["ncm"] with
  | some c => if ¬ (c = "ncm") then df.renameCol c "ncm" else df
  | none => df

/-- Lines 276-277: default the NCM column to the empty string. -/
def dimNcmB (df : DF) : DF :=
  if df.hasCol "ncm" then df else df.setColF "ncm" (fun _ => .vstr "")

/-- Lines 273-277. -/
def dimNcm (df : DF) : DF := dimNcmB (dimNcmA df)

/-- Lines 293-296: derive the `mes_ano` label.  The `else` branch
assigning `"unknown"` is kept exactly as in the code (line 296);
`data_emissao_parsed` always exists by this point, so the live branch
labels a null date `"NaT"` via `periodStr`. -/
def dimMes (df : DF) : DF :=
  if df.hasCol "data_emissao_parsed" then
    df.setColF "mes_ano" (fun r => .vstr (periodStr (getV r "data_emissao_parsed")))
  else df.setColF "mes_ano" (fun _ => .vstr "unknown")

/-- The post-merge dimension preparation (lines 249-296). -/
def prepDims (df : DF) : DF :=
  dimMes (dimNcm (dimCfop (dimUfB (dimUfA (dimDate df)))))

/-- One iteration of the chunk loop.  Returns the new state and, for a
processed (non-skipped) chunk, the fully prepared merged chunk. -/
def processChunk (cfg : Config) (st : RunState) (chunk : DF) :
    Except String (RunState × Option DF) :=
  match prepFront chunk with
  | .error e => .error e
  | .ok none => .ok (st, none)
  | .ok (some c1) =>
    let m := mergeStep st.idx c1
    let d := prepDims m.1
    let s := chunkSum d
    let acc := st.acc
    let acc2 : Accum :=
      { acc with
        total_rows_itens := acc.total_rows_itens + d.rows.length
        faturamento_bruto := qAdd acc.faturamento_bruto s
        icms_estimado := qAdd acc.icms_estimado (qMul s cfg.aliq_icms)
        iss_estimado := qAdd acc.iss_estimado (qMul s cfg.aliq_iss)
        pis_estimado := qAdd acc.pis_estimado (qMul s cfg.aliq_pis)
        cofins_estimado := qAdd acc.cofins_estimado (qMul s cfg.aliq_cofins) }
    let piv2 : Pivots :=
      ⟨bFold st.piv.mes (groupbySum d "mes_ano"),
       bFold st.piv.uf (groupbySum d "uf_emitente"),
       bFold st.piv.cfop (groupbySum d "cfop"),
       bFold st.piv.ncm (groupbySum d "ncm")⟩
    .ok (⟨m.2, acc2, piv2⟩, some d)

/-- The chunk loop, also collecting the prepared chunks in order. -/
def runAux (cfg : Config) (st : RunState) : List DF → Except String (RunState × List DF)
  | [] => .ok (st, [])
  | c :: rest =>
    match processChunk cfg st c with
    | .error e => .error e
    | .ok (st2, od) =>
      match runAux cfg st2 rest with
      | .error e => .error e
      | .ok (stF, ds) =>
        .ok (stF, match od with | none => ds | some d => d :: ds)

/-! ## Parent setup, finalization and the whole run -/

/-- Lines 143-178: read and normalize `notas`, resolve and rename the key
and amount columns (fatal `SystemExit` when either fails or the table is
empty), parse the amounts, and keep the (still present) key column. -/
def prepNotas (notas : DF) : Except String DF :=
  if notas.rows.isEmpty then .error "tabela notas vazia ou nao encontrada"
  else
    let n1 := notas.normCols
    match keyColResolve n1.cols with
    | none => .error "nao encontrei coluna de chave de acesso nas notas"
    | some k =>
      let n2 := n1.renameCol k "chave_acesso"
      match notasValorCol n2.cols with
      | none => .error "nao encontrei coluna de valor nas notas"
      | some vc =>
        let n3 := (n2.renameCol vc "valor_total").applyCol "valor_total"
          (fun v => .vnum (parse_valor_brasileiro v))
        if n3.hasCol "chave_acesso" then .ok n3
        else .error "coluna chave_acesso faltando apos normalizacao"

/-- The key column of the prepared parent, as a list. -/
def parentKeys (n3 : DF) : List Val := n3.rows.map (fun r => getV r "chave_acesso")

/-- `notas_df.set_index("chave_acesso", drop=False)` plus zeroed
accumulators and empty dimension dictionaries. -/
def initState (n3 : DF) : RunState :=
  ⟨⟨n3, parentKeys n3, some "chave_acesso"⟩,
   ⟨0, 0, 0, 0, 0, 0, 0, 0⟩,
   ⟨[], [], [], []⟩⟩

/-- Lines 312-327: the post-stream IRPJ/CSLL computation, a three-state
function of the regime (any unknown regime falls into the final `else`,
like `simples_nacional`). -/
def finalize (cfg : Config) (acc : Accum) : Accum :=
  if cfg.estimar_irpj_csll then
    if cfg.enquadramento = "lucro_presumido" then
      let base := qMul acc.faturamento_bruto cfg.presuncao
      { acc with
        csll_estimado := qMul base cfg.aliquota_csll
        irpj_estimado := qMul base cfg.aliquota_irpj }
    else if cfg.enquadramento = "lucro_real" then
      let lucro := qMul acc.faturamento_bruto cfg.estimated_margin
      { acc with
        csll_estimado := qMul lucro cfg.aliquota_csll
        irpj_estimado := qMul lucro cfg.aliquota_irpj }
    else { acc with csll_estimado := 0, irpj_estimado := 0 }
  else { acc with csll_estimado := 0, irpj_estimado := 0 }

/-- The persisted output: the summary record and the four dimension
tables.  The CSV sort of the pivot pairs only permutes them; no claim
observes the order, so the buckets are kept in accumulation order. -/
structure Output where
  resumo : Accum
  pivot_mes : Bucket
  pivot_uf : Bucket
  pivot_cfop : Bucket
  pivot_ncm : Bucket
deriving DecidableEq

/-- `process_from_postgres`, as a function of the configuration, the
parent table and the stream of child chunks.  `error` is a fatal abort
(`SystemExit` / uncaught exception): nothing is written.  `ok` carries
everything the code writes to disk. -/
def process (cfg : Config) (notas : DF) (chunks : List DF) : Except String Output :=
  match prepNotas notas with
  | .error e => .error e
  | .ok n3 =>
    match runAux cfg (initState n3) chunks with
    | .error e => .error e
    | .ok (st, _) =>
      .ok ⟨finalize cfg st.acc, st.piv.mes, st.piv.uf, st.piv.cfop, st.piv.ncm⟩

/-- The prepared (merged, dimension-annotated) chunks a run processes, in
order; skipped chunks contribute nothing. -/
def runPrepared (cfg : Config) (notas : DF) (chunks : List DF) : Except String (List DF) :=
  match prepNotas notas with
  | .error e => .error e
  | .ok n3 =>
    match runAux cfg (initState n3) chunks with
    | .error e => .error e
    | .ok (_, ds) => .ok ds

/-! ## Specification-side sums (the claims' "parsed item amounts") -/

/-- The sum of a chunk's parsed item amounts, before any join: `0` for a
skipped (or crashing) chunk. -/
def chunkParsedSum (chunk : DF) : ℚ :=
  match prepFront chunk with
  | .ok (some d) => chunkSum d
  | _ => 0

/-- The pre-merge row count of a chunk (`0` when skipped). -/
def chunkRowCount (chunk : DF) : ℕ :=
  match prepFront chunk with
  | .ok (some d) => d.rows.length
  | _ => 0

/-- Total parsed item amounts over a stream of chunks. -/
def totalParsedSum (chunks : List DF) : ℚ := qSum (chunks.map chunkParsedSum)

/-- The part of a prepared chunk's amount sum whose rows carry a
non-null value in dimension column `c` — what the null-dropping
`groupby` actually folds into that dimension's bucket. -/
def nonNullSum (d : DF) (c : String) : ℚ :=
  (d.rows.map (fun r => if getV r c = Val.vnull then 0 else toQ (getV r "valor_total_item"))).sum

/-- The loop-state index either still is the freshly built parent index
(before the first processed chunk) or has been destructively reset to
the stringified positional index (after it). -/
def goodIdx (n3 : DF) (idx : IDF) : Prop :=
  idx.df = n3 ∧
    (idx.iname = some "chave_acesso" ∨
      (idx.iname = none ∧ idx.index = posIndex n3.rows.length))

/-! ## Concrete instances used by witnesses and counterexamples -/

/-- A minimal parent table (already normally named). -/
def notasW : DF :=
  ⟨["chave_acesso", "valor_total"],
   [[("chave_acesso", .vstr "A1"), ("valor_total", .vstr "100")]]⟩

/-- `prepNotas notasW` (the amount parsed in place). -/
def n3W : DF :=
  ⟨["chave_acesso", "valor_total"],
   [[("chave_acesso", .vstr "A1"), ("valor_total", .vnum 100)]]⟩

/-- A child chunk with a Brazilian-formatted amount. -/
def wChunkA : DF :=
  ⟨["chave_acesso", "valor_total"],
   [[("chave_acesso", .vstr "A1"), ("valor_total", .vstr "1.000,00")]]⟩

/-- A second child chunk. -/
def wChunkB : DF :=
  ⟨["chave_acesso", "valor_total"],
   [[("chave_acesso", .vstr "A1"), ("valor_total", .vstr "500,50")]]⟩

/-- A parent table whose two rows share one access key (and whose
column names exercise normalization). -/
def notasDupW : DF :=
  ⟨["Chave de Acesso", "Valor"],
   [[("Chave de Acesso", .vstr "K"), ("Valor", .vstr "1")],
    [("Chave de Acesso", .vstr "K"), ("Valor", .vstr "2")]]⟩

/-- First chunk against `notasDupW` (key matching nothing). -/
def chB1W : DF :=
  ⟨["chave_acesso", "valor_total"],
   [[("chave_acesso", .vstr "A"), ("valor_total", .vstr "5")]]⟩

/-- Second chunk against `notasDupW`: its key matches both parent rows. -/
def chB2W : DF :=
  ⟨["chave_acesso", "valor_total"],
   [[("chave_acesso", .vstr "K"), ("valor_total", .vstr "10")]]⟩

/-- A parent carrying a region column. -/
def notasUfW : DF :=
  ⟨["chave_acesso", "valor_total", "uf_emitente"],
   [[("chave_acesso", .vstr "K"), ("valor_total", .vstr "1"),
     ("uf_emitente", .vstr "SP")]]⟩

/-- A chunk whose key matches `notasUfW`'s row (but is processed first,
so it is joined against the positional index instead). -/
def chCW : DF :=
  ⟨["chave_acesso", "valor_total"],
   [[("chave_acesso", .vstr "K"), ("valor_total", .vstr "10")]]⟩

/-- A parent with two keyed rows carrying distinct regions. -/
def notasPW : DF :=
  ⟨["chave_acesso", "valor_total", "uf_emitente"],
   [[("chave_acesso", .vstr "K1"), ("valor_total", .vstr "1"),
     ("uf_emitente", .vstr "SP")],
    [("chave_acesso", .vstr "K2"), ("valor_total", .vstr "1"),
     ("uf_emitente", .vstr "RJ")]]⟩

/-- Chunk keyed to `K1`. -/
def chD1W : DF :=
  ⟨["chave_acesso", "valor_total"],
   [[("chave_acesso", .vstr "K1"), ("valor_total", .vstr "10")]]⟩

/-- Chunk keyed to `K2`. -/
def chD2W : DF :=
  ⟨["chave_acesso", "valor_total"],
   [[("chave_acesso", .vstr "K2"), ("valor_total", .vstr "20")]]⟩

/-- A chunk whose only amount-like column is named `total`: the parent
priority list resolves it, the chunk's does not. -/
def chTotW : DF :=
  ⟨["chave", "total"],
   [[("chave", .vstr "K"), ("total", .vstr "100")]]⟩

/-- A chunk with no key-like column at all (skipped). -/
def chSkW : DF :=
  ⟨["foo", "valor_total"],
   [[("foo", .vstr "x"), ("valor_total", .vstr "100")]]⟩

/-- A parent with no key-like column (fatal). -/
def notasNoKeyW : DF :=
  ⟨["foo", "valor"],
   [[("foo", .vstr "x"), ("valor", .vstr "1")]]⟩

/-- An arbitrary output value, used to instantiate "no output" statements. -/
def emptyOutput : Output := ⟨⟨0, 0, 0, 0, 0, 0, 0, 0⟩, [], [], [], []⟩

/-- The output of the witness run for the revenue invariant. -/
def wOut1 : Output :=
  (process defaultConfig notasW [wChunkA, wChunkB]).toOption.getD emptyOutput

/-- The outputs of the witness runs for the pivot-total invariant. -/
def wOut2 : Output :=
  (process defaultConfig notasW [wChunkA]).toOption.getD emptyOutput

/-- The prepared chunks of the `wOut2` run. -/
def wDfs2 : List DF :=
  (runPrepared defaultConfig notasW [wChunkA]).toOption.getD []

/-- Outputs of the two permuted witness runs for additivity. -/
def wOut7 : Output :=
  (process defaultConfig notasW [wChunkA, wChunkB]).toOption.getD emptyOutput

/-- Output of the swapped-order run. -/
def wOut7b : Output :=
  (process defaultConfig notasW [wChunkB, wChunkA]).toOption.getD emptyOutput

/-- Output of the doubled-stream run. -/
def wOut7c : Output :=
  (process defaultConfig notasW [wChunkA, wChunkB, wChunkA, wChunkB]).toOption.getD emptyOutput

/-- The `simples_nacional` twin of the default configuration. -/
def cfgSimplesW : Config := { defaultConfig with enquadramento := "simples_nacional" }

/-- Outputs of the two regime-twin witness runs. -/
def wOut8 : Output :=
  (process defaultConfig notasW [wChunkA]).toOption.getD emptyOutput

/-- Output under `simples_nacional`. -/
def wOut8b : Output :=
  (process cfgSimplesW notasW [wChunkA]).toOption.getD emptyOutput

/-- A prepared chunk with no date column anywhere, for the month-label
witness, and its row. -/
def wPrep6 : DF := prepDims ⟨["x"], [[("x", .vstr "v")]]⟩

/-- The single row of `wPrep6`. -/
def wRow6 : Row := wPrep6.rows.headD []

/-- The prepared (pre-merge) form of `wChunkA`, for the
child-amount-resolution witness. -/
def wC5out : DF :=
  match prepFront wChunkA with
  | .ok (some d) => d
  | _ => ⟨[], []⟩

/-- The first-chunk state index over `n3W`, for the positional-join
witness. -/
def wIdx10 : IDF := (initState n3W).idx

/-- A chunk whose key is no position string. -/
def wCh10 : DF :=
  ⟨["chave_acesso", "valor_total_item"],
   [[("chave_acesso", .vstr "Z9"), ("valor_total_item", .vnum 7)]]⟩

/-! ## Bridge lemmas: kernel arithmetic to Mathlib arithmetic -/

theorem qAdd_eq (a b : ℚ) : qAdd a b = a + b := by
  rw [qAdd, Rat.add_def, Rat.normalize_eq_mkRat]

theorem qMul_eq (a b : ℚ) : qMul a b = a * b := by
  rw [qMul, Rat.mul_def, Rat.normalize_eq_mkRat]

theorem qNeg_eq (a : ℚ) : qNeg a = -a := by
  rw [qNeg, Rat.neg_def, ← Rat.divInt_ofNat]

theorem qSum_eq (l : List ℚ) : qSum l = l.sum := by
  induction l with
  | nil => rfl
  | cons a t ih => simp [qSum, List.foldr_cons, qAdd_eq] at ih ⊢; rw [ih]

theorem totalParsedSum_eq (chunks : List DF) :
    totalParsedSum chunks = (chunks.map chunkParsedSum).sum := by
  rw [totalParsedSum, qSum_eq]

theorem chunkSum_eq (d : DF) :
    chunkSum d = (d.rows.map (fun r => toQ (getV r "valor_total_item"))).sum := by
  rw [chunkSum, qSum_eq]

/-! ## Row-level lemmas -/

theorem hasV_cons (p : String × Val) (t : Row) (c : String) :
    hasV (p :: t) c = (decide (p.1 = c) || hasV t c) := by
  simp [hasV]

theorem getV_eq_vnull_of_not_hasV (r : Row) (c : String) (h : ¬ hasV r c = true) :
    getV r c = .vnull := by
  induction r with
  | nil => rfl
  | cons p t ih =>
    rw [hasV_cons] at h
    have hp : ¬ p.1 = c := fun hc => h (by simp [hc])
    have ht : ¬ hasV t c = true := fun hc => h (by simp [hc])
    simp only [getV, if_neg hp]
    exact ih ht

theorem getV_append (l r : Row) (c : String) :
    getV (l ++ r) c = if hasV l c then getV l c else getV r c := by
  induction l with
  | nil => simp [hasV, getV]
  | cons p t ih =>
    rw [List.cons_append]
    by_cases hp : p.1 = c
    · simp [getV, hp, hasV_cons]
    · simp only [getV, if_neg hp, ih, hasV_cons, decide_eq_false hp, Bool.false_or]

theorem getV_append_left (l r : Row) (c : String) (h : hasV l c = true) :
    getV (l ++ r) c = getV l c := by
  rw [getV_append, if_pos h]

theorem getV_map_upd_self (t : Row) (c : String) (v : Val) (h : hasV t c = true) :
    getV (t.map (fun p => if p.1 = c then (c, v) else p)) c = v := by
  induction t with
  | nil => simp [hasV] at h
  | cons p t ih =>
    rw [hasV_cons] at h
    by_cases hp : p.1 = c
    · simp [getV, hp]
    · have ht : hasV t c = true := by simpa [decide_eq_false hp] using h
      simp only [List.map_cons, if_neg hp, getV, if_neg hp]
      exact ih ht

theorem getV_map_upd_ne (t : Row) (c c2 : String) (v : Val) (h : ¬ c = c2) :
    getV (t.map (fun p => if p.1 = c2 then (c2, v) else p)) c = getV t c := by
  induction t with
  | nil => rfl
  | cons p t ih =>
    by_cases hp : p.1 = c2
    · have hpc : ¬ p.1 = c := by rw [hp]; exact fun hc => h hc.symm
      have hc2c : ¬ c2 = c := fun hc => h hc.symm
      simp only [List.map_cons, if_pos hp, getV, if_neg hc2c, if_neg hpc]
      exact ih
    · simp only [List.map_cons, if_neg hp, getV]
      by_cases hc : p.1 = c
      · simp [hc]
      · simp only [if_neg hc]
        exact ih

theorem getV_setV_self (r : Row) (c : String) (v : Val) : getV (setV r c v) c = v := by
  unfold setV
  by_cases h : hasV r c = true
  · rw [if_pos h]
    exact getV_map_upd_self r c v h
  · rw [if_neg h, getV_append, if_neg h]
    simp [getV]

theorem getV_setV_ne (r : Row) (c c2 : String) (v : Val) (h : ¬ c = c2) :
    getV (setV r c2 v) c = getV r c := by
  unfold setV
  by_cases hr : hasV r c2 = true
  · rw [if_pos hr]
    exact getV_map_upd_ne r c c2 v h
  · rw [if_neg hr, getV_append]
    by_cases hc : hasV r c = true
    · rw [if_pos hc]
    · rw [if_neg hc, getV_eq_vnull_of_not_hasV r c hc]
      simp only [getV, if_neg (show ¬ (c2, v).1 = c from fun hc2 => h hc2.symm)]

theorem hasV_setV_self (r : Row) (c : String) (v : Val) : hasV (setV r c v) c = true := by
  unfold setV
  by_cases hr : hasV r c = true
  · rw [if_pos hr]
    simp only [hasV, List.any_eq_true, decide_eq_true_eq] at hr ⊢
    obtain ⟨p, hp, hpc⟩ := hr
    exact ⟨(c, v), List.mem_map.2 ⟨p, hp, by simp [hpc]⟩, rfl⟩
  · rw [if_neg hr]
    simp [hasV]

theorem hasV_setV_mono (r : Row) (c c2 : String) (v : Val) (h : hasV r c = true) :
    hasV (setV r c2 v) c = true := by
  by_cases he : c = c2
  · rw [he]
    exact hasV_setV_self r c2 v
  · unfold setV
    by_cases hr : hasV r c2 = true
    · rw [if_pos hr]
      simp only [hasV, List.any_eq_true, decide_eq_true_eq] at h ⊢
      obtain ⟨p, hp, hpc⟩ := h
      refine ⟨p, List.mem_map.2 ⟨p, hp, ?_⟩, hpc⟩
      rw [if_neg (by rw [hpc]; exact he)]
    · rw [if_neg hr]
      simp only [hasV, List.any_append] at *
      simp [h]

theorem getV_mapKeys (f : String → String) (r : Row) (c : String)
    (hf : ∀ k, f k = c ↔ k = c) :
    getV (mapKeys f r) c = getV r c := by
  induction r with
  | nil => rfl
  | cons p t ih =>
    by_cases hp : p.1 = c
    · have h1 : f p.1 = c := (hf p.1).2 hp
      simp only [mapKeys, List.map_cons, getV, if_pos h1, if_pos hp]
    · simp only [mapKeys, List.map_cons, getV,
        if_neg (fun h => hp ((hf p.1).1 h)), if_neg hp]
      exact ih

theorem hasV_mapKeys_mono (f : String → String) (r : Row) (c : String)
    (hf : f c = c) (h : hasV r c = true) : hasV (mapKeys f r) c = true := by
  simp only [hasV, List.any_eq_true, decide_eq_true_eq] at h ⊢
  obtain ⟨p, hp, hpc⟩ := h
  exact ⟨(f p.1, p.2), List.mem_map.2 ⟨p, hp, rfl⟩, by simp [hpc, hf]⟩

/-! ## Bucket lemmas -/

theorem bTotal_nil : bTotal [] = 0 := rfl

theorem bTotal_cons (p : Val × ℚ) (t : Bucket) : bTotal (p :: t) = p.2 + bTotal t := by
  simp [bTotal, qSum_eq, List.sum_cons]

theorem bTotal_bAdd (b : Bucket) (k : Val) (q : ℚ) :
    bTotal (bAdd b k q) = bTotal b + q := by
  induction b with
  | nil => simp [bAdd, bTotal, qSum_eq]
  | cons p t ih =>
    by_cases hp : p.1 = k
    · simp only [bAdd, if_pos hp, bTotal_cons, qAdd_eq]
      ring
    · simp only [bAdd, if_neg hp, bTotal_cons, ih]
      ring

theorem bTotal_bFold (b : Bucket) (g : List (Val × ℚ)) :
    bTotal (bFold b g) = bTotal b + bTotal g := by
  induction g generalizing b with
  | nil => simp [bFold, bTotal_nil]
  | cons p t ih =>
    simp only [bFold, List.foldl_cons] at ih ⊢
    rw [ih (bAdd b p.1 p.2), bTotal_bAdd, bTotal_cons]
    ring

theorem bTotal_groupbySum (d : DF) (c : String) :
    bTotal (groupbySum d c) = nonNullSum d c := by
  have main : ∀ (rows : List Row) (acc : Bucket),
      bTotal (rows.foldl (fun acc r =>
        match getV r c with
        | .vnull => acc
        | k => bAdd acc k (toQ (getV r "valor_total_item"))) acc)
      = bTotal acc + (rows.map (fun r =>
          if getV r c = Val.vnull then 0 else toQ (getV r "valor_total_item"))).sum := by
    intro rows
    induction rows with
    | nil => intro acc; simp
    | cons r t ih =>
      intro acc
      rw [List.foldl_cons, List.map_cons, List.sum_cons]
      cases hg : getV r c with
      | vnull => rw [ih]; simp [hg]
      | vstr s => rw [ih, bTotal_bAdd]; simp [hg]; ring
      | vnum q => rw [ih, bTotal_bAdd]; simp [hg]; ring
      | vdate y m => rw [ih, bTotal_bAdd]; simp [hg]; ring
  rw [groupbySum, nonNullSum, main d.rows [], bTotal_nil, zero_add]

theorem nonNullSum_eq_chunkSum (d : DF) (c : String)
    (h : ∀ r ∈ d.rows, ¬ getV r c = Val.vnull) :
    nonNullSum d c = chunkSum d := by
  rw [nonNullSum, chunkSum_eq]
  refine congrArg _ (List.map_congr_left ?_)
  intro r hr
  rw [if_neg (h r hr)]

/-! ## Injectivity of the decimal rendering, nodup positional index -/

theorem undigs_digsAux (fuel n : ℕ) (h : n < fuel) : undigs (digsAux fuel n) = n := by
  induction fuel generalizing n with
  | zero => omega
  | succ fuel ih =>
    rw [digsAux]
    by_cases h10 : n < 10
    · simp [h10, undigs]
    · rw [if_neg h10, undigs]
      have hrec : n / 10 < fuel := by
        have : n / 10 < n := Nat.div_lt_self (by omega) (by omega)
        omega
      rw [ih (n / 10) hrec]
      omega

theorem digs_inj : Function.Injective digs := by
  intro m n h
  have hm := undigs_digsAux (m + 1) m (by omega)
  have hn := undigs_digsAux (n + 1) n (by omega)
  rw [digs] at h
  rw [← hm, ← hn, digs] at *
  rw [h]

theorem digsAux_lt_ten (fuel n : ℕ) : ∀ d ∈ digsAux fuel n, d < 10 := by
  induction fuel generalizing n with
  | zero => simp [digsAux]
  | succ fuel ih =>
    rw [digsAux]
    by_cases h10 : n < 10
    · simp only [if_pos h10, List.mem_singleton]
      intro d hd
      omega
    · rw [if_neg h10]
      intro d hd
      rcases List.mem_cons.1 hd with h1 | h2
      · omega
      · exact ih (n / 10) d h2

theorem dChar_inj : ∀ d < 10, ∀ e < 10, dChar d = dChar e → d = e := by decide

theorem map_dChar_inj (l1 l2 : List ℕ) (h1 : ∀ d ∈ l1, d < 10) (h2 : ∀ d ∈ l2, d < 10)
    (h : l1.map dChar = l2.map dChar) : l1 = l2 := by
  induction l1 generalizing l2 with
  | nil => cases l2 with
    | nil => rfl
    | cons b t => simp at h
  | cons a t ih =>
    cases l2 with
    | nil => simp at h
    | cons b t2 =>
      simp only [List.map_cons, List.cons.injEq] at h
      have ha := h1 a (by simp)
      have hb := h2 b (by simp)
      rw [dChar_inj a ha b hb h.1,
        ih t2 (fun d hd => h1 d (List.mem_cons_of_mem a hd))
          (fun d hd => h2 d (List.mem_cons_of_mem b hd)) h.2]

theorem decStr_inj : Function.Injective decStr := by
  intro m n h
  rw [decStr, decStr] at h
  have hd : ((digs m).reverse).map dChar = ((digs n).reverse).map dChar := by
    have := congrArg String.data h
    simpa using this
  have hlt1 : ∀ d ∈ (digs m).reverse, d < 10 := by
    intro d hd2
    exact digsAux_lt_ten (m + 1) m d (List.mem_reverse.1 hd2)
  have hlt2 : ∀ d ∈ (digs n).reverse, d < 10 := by
    intro d hd2
    exact digsAux_lt_ten (n + 1) n d (List.mem_reverse.1 hd2)
  have := map_dChar_inj _ _ hlt1 hlt2 hd
  exact digs_inj (List.reverse_injective this)

theorem posIndex_nodup (n : ℕ) : (posIndex n).Nodup := by
  refine List.Nodup.map ?_ (List.nodup_range n)
  intro a b h
  exact decStr_inj (by injection h)

/-! ## Left-merge preservation lemmas

When every child key matches at most one right-side row, a left merge
neither multiplies nor drops left rows, and a left column survives in
every output row; hence the amount sum and the row count of the merged
chunk equal those of the chunk itself. -/

theorem length_filter_le_one {α β : Type} [DecidableEq β] (l : List α) (f : α → β) (v : β)
    (h : (l.map f).Nodup) : (l.filter (fun a => decide (f a = v))).length ≤ 1 := by
  induction l with
  | nil => simp
  | cons a t ih =>
    rw [List.map_cons, List.nodup_cons] at h
    by_cases ha : f a = v
    · rw [List.filter_cons_of_pos (by simp [ha])]
      have ht : t.filter (fun a => decide (f a = v)) = [] := by
        rw [List.filter_eq_nil_iff]
        intro x hx
        simp only [decide_eq_true_eq]
        intro he
        have hmem : f x ∈ List.map f t := List.mem_map.2 ⟨x, hx, rfl⟩
        rw [he, ← ha] at hmem
        exact h.1 hmem
      rw [ht]
      simp
    · rw [List.filter_cons_of_neg (by simp [ha])]
      exact ih h.2

theorem flatMap_single_sum (rows : List Row) (g : Row → List Row) (c : String)
    (h : ∀ r ∈ rows, ∃ x, g r = [x] ∧ getV x c = getV r c) :
    ((rows.flatMap g).map (fun x => toQ (getV x c))).sum
      = (rows.map (fun r => toQ (getV r c))).sum
    ∧ (rows.flatMap g).length = rows.length := by
  induction rows with
  | nil => simp
  | cons r t ih =>
    obtain ⟨x, hx, hv⟩ := h r (by simp)
    have iht := ih (fun r2 hr2 => h r2 (List.mem_cons_of_mem r hr2))
    rw [List.flatMap_cons, hx]
    constructor
    · rw [List.map_append, List.sum_append, List.map_cons, List.sum_cons, iht.1]
      simp [hv]
    · rw [List.length_append, iht.2]
      simp [Nat.add_comm]

theorem onContrib_single (l r : DF) (key c : String) (lr : Row)
    (hvl : hasV lr c = true)
    (hnd : (r.rows.map (fun rr => getV rr key)).Nodup) :
    ∃ x, onContrib l r key lr = [x] ∧ getV x c = getV lr c := by
  unfold onContrib
  by_cases hnull : getV lr key = Val.vnull
  · simp only [if_pos hnull]
    exact ⟨_, rfl, getV_append_left _ _ _ hvl⟩
  · simp only [if_neg hnull]
    have hle : (r.rows.filter (fun rr => decide (getV rr key = getV lr key))).length ≤ 1 :=
      length_filter_le_one r.rows (fun rr => getV rr key) (getV lr key) hnd
    generalize r.rows.filter (fun rr => decide (getV rr key = getV lr key)) = ms at hle ⊢
    cases ms with
    | nil => exact ⟨_, rfl, getV_append_left _ _ _ hvl⟩
    | cons a t =>
      cases t with
      | nil => exact ⟨_, rfl, getV_append_left _ _ _ hvl⟩
      | cons b t2 => simp at hle

theorem riContrib_single (l r : DF) (key c : String) (ridx : List Val) (lr : Row)
    (hvl : hasV lr c = true)
    (hlen : ridx.length ≤ r.rows.length)
    (hnd : ridx.Nodup) :
    ∃ x, riContrib l r key ridx lr = [x] ∧ getV x c = getV lr c := by
  unfold riContrib
  by_cases hnull : getV lr key = Val.vnull
  · simp only [if_pos hnull]
    exact ⟨_, rfl, getV_append_left _ _ _ hvl⟩
  · simp only [if_neg hnull]
    have hndz : ((r.rows.zip ridx).map Prod.snd).Nodup := by
      rw [List.map_snd_zip r.rows ridx hlen]
      exact hnd
    have hle : ((r.rows.zip ridx).filter (fun p => decide (p.2 = getV lr key))).length ≤ 1 :=
      length_filter_le_one (r.rows.zip ridx) Prod.snd (getV lr key) hndz
    generalize (r.rows.zip ridx).filter (fun p => decide (p.2 = getV lr key)) = ms at hle ⊢
    cases ms with
    | nil => exact ⟨_, rfl, getV_append_left _ _ _ hvl⟩
    | cons a t =>
      cases t with
      | nil => exact ⟨_, rfl, getV_append_left _ _ _ hvl⟩
      | cons b t2 => simp at hle

theorem mergeOn_rows (l r : DF) (key : String)
    (hv : ∀ lr ∈ l.rows, hasV lr "valor_total_item" = true)
    (hnd : (r.rows.map (fun rr => getV rr key)).Nodup) :
    chunkSum (mergeOn l r key) = chunkSum l ∧
    (mergeOn l r key).rows.length = l.rows.length := by
  rw [chunkSum_eq, chunkSum_eq]
  exact flatMap_single_sum l.rows (onContrib l r key) "valor_total_item"
    (fun lr hlr => onContrib_single l r key "valor_total_item" lr (hv lr hlr) hnd)

theorem mergeRightIndex_rows (l : DF) (key : String) (r : DF) (ridx : List Val)
    (hv : ∀ lr ∈ l.rows, hasV lr "valor_total_item" = true)
    (hlen : ridx.length ≤ r.rows.length)
    (hnd : ridx.Nodup) :
    chunkSum (mergeRightIndex l key r ridx) = chunkSum l ∧
    (mergeRightIndex l key r ridx).rows.length = l.rows.length := by
  rw [chunkSum_eq, chunkSum_eq]
  exact flatMap_single_sum l.rows (riContrib l r key ridx) "valor_total_item"
    (fun lr hlr => riContrib_single l r key "valor_total_item" ridx lr (hv lr hlr) hlen hnd)

/-! ## Column-transformation preservation lemmas -/

theorem orElse_some {α : Type} (a b : Option α) (u : α) (h : (a <|> b) = some u) :
    a = some u ∨ b = some u := by
  cases a with
  | none => right; simpa using h
  | some x => left; simpa using h

theorem rows_map_getV_setColF (df : DF) (c2 : String) (f : Row → Val) (c : String)
    (h : ¬ c = c2) :
    (df.setColF c2 f).rows.map (fun r => getV r c) = df.rows.map (fun r => getV r c) := by
  simp only [DF.setColF, List.map_map]
  exact List.map_congr_left (fun r _ => getV_setV_ne r c c2 (f r) h)

theorem rows_map_getV_renameCol (df : DF) (u t c : String) (hu : ¬ u = c) (ht : ¬ t = c) :
    (df.renameCol u t).rows.map (fun r => getV r c) = df.rows.map (fun r => getV r c) := by
  simp only [DF.renameCol, List.map_map]
  refine List.map_congr_left (fun r _ => ?_)
  refine getV_mapKeys _ r c (fun k => ⟨?_, ?_⟩)
  · intro hk
    by_cases hku : k = u
    · rw [if_pos hku] at hk
      exact absurd hk ht
    · rwa [if_neg hku] at hk
  · intro hk
    rw [hk, if_neg (fun hcu : c = u => hu hcu.symm)]

theorem hasCol_setColF_self (df : DF) (c : String) (f : Row → Val) :
    (df.setColF c f).hasCol c = true := by
  simp only [DF.setColF, DF.hasCol]
  split
  · assumption
  · rw [List.elem_iff]
    simp

theorem hasCol_setColF_mono (df : DF) (c2 : String) (f : Row → Val) (c : String)
    (h : df.hasCol c = true) : (df.setColF c2 f).hasCol c = true := by
  simp only [DF.setColF, DF.hasCol] at h ⊢
  split
  · exact h
  · rw [List.elem_iff] at h ⊢
    exact List.mem_append.2 (Or.inl h)

theorem hasCol_renameCol_mono (df : DF) (u t c : String) (hu : ¬ u = c)
    (h : df.hasCol c = true) : (df.renameCol u t).hasCol c = true := by
  simp only [DF.renameCol, DF.hasCol] at h ⊢
  rw [List.elem_iff] at h ⊢
  refine List.mem_map.2 ⟨c, h, ?_⟩
  rw [if_neg (fun hcu : c = u => hu hcu.symm)]

theorem find_best_column_some (cols ks : List String) (u : String) (hne : ¬ ks = [])
    (h : find_best_column cols ks = some u) :
    u ∈ cols ∧ ks.any (fun k => substrB k (normalize_colname u)) = true := by
  unfold find_best_column at h
  rcases orElse_some _ _ _ h with h1 | h1
  · refine ⟨List.mem_of_find?_eq_some h1, ?_⟩
    have hall := List.find?_some h1
    simp only [List.all_eq_true] at hall
    cases ks with
    | nil => exact absurd rfl hne
    | cons k t =>
      simp only [List.any_cons, Bool.or_eq_true]
      exact Or.inl (hall k (by simp))
  · refine ⟨List.mem_of_find?_eq_some h1, ?_⟩
    have := List.find?_some h1
    simpa using this

/-- If a singleton-keyword resolution returns `u`, then `u`'s normalized
name contains the keyword. -/
theorem find_best_column_single (cols : List String) (k u : String)
    (h : find_best_column cols [k] = some u) :
    substrB k (normalize_colname u) = true := by
  have := (find_best_column_some cols [k] u (by simp) h).2
  simpa using this

/-! ## `prepDims` preserves the amount column -/

theorem dimDate_valor (df : DF) :
    (dimDate df).rows.map (fun r => getV r "valor_total_item")
      = df.rows.map (fun r => getV r "valor_total_item") := by
  unfold dimDate
  split
  · exact rows_map_getV_setColF df _ _ _ (by decide)
  · split
    · exact rows_map_getV_setColF df _ _ _ (by decide)
    · exact rows_map_getV_setColF df _ _ _ (by decide)

theorem dimUfA_valor (df : DF) :
    (dimUfA df).rows.map (fun r => getV r "valor_total_item")
      = df.rows.map (fun r => getV r "valor_total_item") := by
  unfold dimUfA
  split
  next u ho =>
    have hu : ¬ u = "valor_total_item" := by
      rcases orElse_some _ _ _ ho with h1 | h1 <;>
      · have := find_best_column_single _ _ _ h1
        intro he
        rw [he] at this
        exact absurd this (by decide)
    split
    · exact rows_map_getV_renameCol df u "uf_emitente" "valor_total_item" hu (by decide)
    · rfl
  next => rfl

theorem dimUfB_valor (df : DF) :
    (dimUfB df).rows.map (fun r => getV r "valor_total_item")
      = df.rows.map (fun r => getV r "valor_total_item") := by
  unfold dimUfB
  split
  · rfl
  · exact rows_map_getV_setColF df _ _ _ (by decide)

theorem dimCfopA_valor (df : DF) :
    (dimCfopA df).rows.map (fun r => getV r "valor_total_item")
      = df.rows.map (fun r => getV r "valor_total_item") := by
  unfold dimCfopA
  split
  next u ho =>
    have hu : ¬ u = "valor_total_item" := by
      have := find_best_column_single _ _ _ ho
      intro he
      rw [he] at this
      exact absurd this (by decide)
    split
    · exact rows_map_getV_renameCol df u "cfop" "valor_total_item" hu (by decide)
    · rfl
  next => rfl

theorem dimCfopB_valor (df : DF) :
    (dimCfopB df).rows.map (fun r => getV r "valor_total_item")
      = df.rows.map (fun r => getV r "valor_total_item") := by
  unfold dimCfopB
  split
  · rfl
  · exact rows_map_getV_setColF df _ _ _ (by decide)

theorem dimNcmA_valor (df : DF) :
    (dimNcmA df).rows.map (fun r => getV r "valor_total_item")
      = df.rows.map (fun r => getV r "valor_total_item") := by
  unfold dimNcmA
  split
  next u ho =>
    have hu : ¬ u = "valor_total_item" := by
      have := find_best_column_single _ _ _ ho
      intro he
      rw [he] at this
      exact absurd this (by decide)
    split
    · exact rows_map_getV_renameCol df u "ncm" "valor_total_item" hu (by decide)
    · rfl
  next => rfl

theorem dimNcmB_valor (df : DF) :
    (dimNcmB df).rows.map (fun r => getV r "valor_total_item")
      = df.rows.map (fun r => getV r "valor_total_item") := by
  unfold dimNcmB
  split
  · rfl
  · exact rows_map_getV_setColF df _ _ _ (by decide)

theorem dimCfop_valor (df : DF) :
    (dimCfop df).rows.map (fun r => getV r "valor_total_item")
      = df.rows.map (fun r => getV r "valor_total_item") := by
  unfold dimCfop
  rw [dimCfopB_valor, dimCfopA_valor]

theorem dimNcm_valor (df : DF) :
    (dimNcm df).rows.map (fun r => getV r "valor_total_item")
      = df.rows.map (fun r => getV r "valor_total_item") := by
  unfold dimNcm
  rw [dimNcmB_valor, dimNcmA_valor]

theorem dimMes_valor (df : DF) :
    (dimMes df).rows.map (fun r => getV r "valor_total_item")
      = df.rows.map (fun r => getV r "valor_total_item") := by
  unfold dimMes
  split
  · exact rows_map_getV_setColF df _ _ _ (by decide)
  · exact rows_map_getV_setColF df _ _ _ (by decide)

theorem prepDims_valor (df : DF) :
    (prepDims df).rows.map (fun r => getV r "valor_total_item")
      = df.rows.map (fun r => getV r "valor_total_item") := by
  unfold prepDims
  rw [dimMes_valor, dimNcm_valor, dimCfop_valor, dimUfB_valor, dimUfA_valor, dimDate_valor]

theorem chunkSum_congr (d1 d2 : DF)
    (h : d1.rows.map (fun r => getV r "valor_total_item")
        = d2.rows.map (fun r => getV r "valor_total_item")) :
    chunkSum d1 = chunkSum d2 := by
  rw [chunkSum, chunkSum]
  have h2 : d1.rows.map (fun r => toQ (getV r "valor_total_item"))
      = d2.rows.map (fun r => toQ (getV r "valor_total_item")) := by
    have := congrArg (List.map toQ) h
    simpa [List.map_map, Function.comp] using this
  rw [h2]

theorem rows_length_congr (d1 d2 : DF)
    (h : d1.rows.map (fun r => getV r "valor_total_item")
        = d2.rows.map (fun r => getV r "valor_total_item")) :
    d1.rows.length = d2.rows.length := by
  have := congrArg List.length h
  simpa using this

theorem prepDims_chunkSum (df : DF) : chunkSum (prepDims df) = chunkSum df :=
  chunkSum_congr _ _ (prepDims_valor df)

theorem prepDims_length (df : DF) : (prepDims df).rows.length = df.rows.length :=
  rows_length_congr _ _ (prepDims_valor df)

/-- Every row of a `dimMes` output carries a string `mes_ano` label. -/
theorem dimMes_mes_vstr (df : DF) :
    ∀ r ∈ (dimMes df).rows, ∃ s, getV r "mes_ano" = Val.vstr s := by
  unfold dimMes
  split
  · intro r hr
    simp only [DF.setColF] at hr
    obtain ⟨r0, _, rfl⟩ := List.mem_map.1 hr
    exact ⟨_, getV_setV_self r0 _ _⟩
  · intro r hr
    simp only [DF.setColF] at hr
    obtain ⟨r0, _, rfl⟩ := List.mem_map.1 hr
    exact ⟨_, getV_setV_self r0 _ _⟩

theorem prepDims_mes_vstr (df : DF) :
    ∀ r ∈ (prepDims df).rows, ∃ s, getV r "mes_ano" = Val.vstr s := by
  unfold prepDims
  exact dimMes_mes_vstr _

/-! ## `prepFront` facts -/

theorem hasV_applyCol (df : DF) (c : String) (f : Val → Val) :
    ∀ r ∈ (df.applyCol c f).rows, hasV r c = true := by
  intro r hr
  simp only [DF.applyCol, DF.setColF] at hr
  obtain ⟨r0, _, rfl⟩ := List.mem_map.1 hr
  exact hasV_setV_self r0 c _

theorem prepFront_hasValor (c c1 : DF) (h : prepFront c = .ok (some c1)) :
    ∀ r ∈ c1.rows, hasV r "valor_total_item" = true := by
  unfold prepFront at h
  split at h
  · simp at h
  · split at h
    · simp only [Except.ok.injEq, Option.some.injEq] at h
      subst h
      exact hasV_applyCol _ _ _
    · split at h
      · split at h
        · simp at h
        · simp only [Except.ok.injEq, Option.some.injEq] at h
          subst h
          exact hasV_applyCol _ _ _
      · simp only [Except.ok.injEq, Option.some.injEq] at h
        subst h
        exact hasV_applyCol _ _ _

theorem chunkParsedSum_skip (c : DF) (h : prepFront c = .ok none) :
    chunkParsedSum c = 0 := by
  rw [chunkParsedSum, h]

theorem chunkRowCount_skip (c : DF) (h : prepFront c = .ok none) :
    chunkRowCount c = 0 := by
  rw [chunkRowCount, h]

theorem chunkParsedSum_some (c c1 : DF) (h : prepFront c = .ok (some c1)) :
    chunkParsedSum c = chunkSum c1 := by
  rw [chunkParsedSum, h]

theorem chunkRowCount_some (c c1 : DF) (h : prepFront c = .ok (some c1)) :
    chunkRowCount c = c1.rows.length := by
  rw [chunkRowCount, h]

/-! ## `mergeStep` facts -/

theorem posIndex_length (n : ℕ) : (posIndex n).length = n := by
  simp [posIndex]

theorem stringifyKey_valor (c1 : DF) :
    (stringifyKey c1).rows.map (fun r => getV r "valor_total_item")
      = c1.rows.map (fun r => getV r "valor_total_item") := by
  unfold stringifyKey DF.applyCol
  exact rows_map_getV_setColF c1 "chave_acesso" _ "valor_total_item" (by decide)

theorem stringifyKey_hasValor (c1 : DF)
    (hv : ∀ r ∈ c1.rows, hasV r "valor_total_item" = true) :
    ∀ r ∈ (stringifyKey c1).rows, hasV r "valor_total_item" = true := by
  intro r hr
  simp only [stringifyKey, DF.applyCol, DF.setColF] at hr
  obtain ⟨r0, hr0, rfl⟩ := List.mem_map.1 hr
  exact hasV_setV_mono _ _ _ _ (hv r0 hr0)

theorem mergeStep_good (n3 : DF) (idx : IDF) (c1 : DF) (hg : goodIdx n3 idx) :
    goodIdx n3 (mergeStep idx c1).2 := by
  unfold mergeStep
  rcases hg with ⟨hdf, hcase⟩
  split
  · exact ⟨hdf, Or.inr ⟨rfl, by rw [hdf]⟩⟩
  next hne =>
    rcases hcase with h1 | h1
    · exact absurd h1 hne
    · exact ⟨hdf, Or.inr h1⟩

theorem mergeStep_sum (n3 : DF) (idx : IDF) (c1 : DF)
    (hg : goodIdx n3 idx) (hnd : (parentKeys n3).Nodup)
    (hv : ∀ r ∈ c1.rows, hasV r "valor_total_item" = true) :
    chunkSum (mergeStep idx c1).1 = chunkSum c1 ∧
    (mergeStep idx c1).1.rows.length = c1.rows.length := by
  unfold mergeStep
  rcases hg with ⟨hdf, hcase⟩
  split
  · -- first processed chunk: stringified key against the positional index
    have hv2 := stringifyKey_hasValor c1 hv
    have hlen : (posIndex idx.df.rows.length).length ≤ idx.df.rows.length := by
      rw [posIndex_length]
    have h1 := mergeRightIndex_rows (stringifyKey c1) "chave_acesso" idx.df
      (posIndex idx.df.rows.length) hv2 hlen (posIndex_nodup _)
    have h2 : chunkSum (stringifyKey c1) = chunkSum c1 :=
      chunkSum_congr _ _ (stringifyKey_valor c1)
    have h3 : (stringifyKey c1).rows.length = c1.rows.length :=
      rows_length_congr _ _ (stringifyKey_valor c1)
    exact ⟨h1.1.trans h2, h1.2.trans h3⟩
  next hne =>
    -- later chunks: column merge against the parent key column
    have hnd2 : (idx.df.rows.map (fun rr => getV rr "chave_acesso")).Nodup := by
      rw [hdf]
      exact hnd
    exact mergeOn_rows c1 idx.df "chave_acesso" hv hnd2

/-! ## `processChunk` inversion and deltas -/

theorem processChunk_ok (cfg : Config) (st : RunState) (c : DF) (st2 : RunState)
    (od : Option DF) (h : processChunk cfg st c = .ok (st2, od)) :
    (od = none ∧ st2 = st ∧ prepFront c = .ok none) ∨
    (∃ c1 d, prepFront c = .ok (some c1) ∧ od = some d ∧
      d = prepDims (mergeStep st.idx c1).1 ∧
      st2.idx = (mergeStep st.idx c1).2 ∧
      st2.acc = { st.acc with
        total_rows_itens := st.acc.total_rows_itens + d.rows.length
        faturamento_bruto := qAdd st.acc.faturamento_bruto (chunkSum d)
        icms_estimado := qAdd st.acc.icms_estimado (qMul (chunkSum d) cfg.aliq_icms)
        iss_estimado := qAdd st.acc.iss_estimado (qMul (chunkSum d) cfg.aliq_iss)
        pis_estimado := qAdd st.acc.pis_estimado (qMul (chunkSum d) cfg.aliq_pis)
        cofins_estimado := qAdd st.acc.cofins_estimado (qMul (chunkSum d) cfg.aliq_cofins) } ∧
      st2.piv = ⟨bFold st.piv.mes (groupbySum d "mes_ano"),
                 bFold st.piv.uf (groupbySum d "uf_emitente"),
                 bFold st.piv.cfop (groupbySum d "cfop"),
                 bFold st.piv.ncm (groupbySum d "ncm")⟩) := by
  unfold processChunk at h
  split at h
  · exact absurd h (by simp)
  · simp only [Except.ok.injEq, Prod.mk.injEq] at h
    exact Or.inl ⟨h.2.symm, h.1.symm, by assumption⟩
  next c1 hpf =>
    simp only [Except.ok.injEq, Prod.mk.injEq] at h
    refine Or.inr ⟨c1, prepDims (mergeStep st.idx c1).1, hpf, h.2.symm, rfl, ?_, ?_, ?_⟩
    · rw [← h.1]
    · rw [← h.1]
    · rw [← h.1]

theorem processChunk_delta2 (cfg : Config) (st : RunState) (c : DF) (st2 : RunState)
    (d : DF) (h : processChunk cfg st c = .ok (st2, some d)) :
    st2.acc.faturamento_bruto = st.acc.faturamento_bruto + chunkSum d ∧
    bTotal st2.piv.mes = bTotal st.piv.mes + nonNullSum d "mes_ano" ∧
    bTotal st2.piv.uf = bTotal st.piv.uf + nonNullSum d "uf_emitente" ∧
    bTotal st2.piv.cfop = bTotal st.piv.cfop + nonNullSum d "cfop" ∧
    bTotal st2.piv.ncm = bTotal st.piv.ncm + nonNullSum d "ncm" ∧
    (∀ r ∈ d.rows, ∃ s, getV r "mes_ano" = Val.vstr s) := by
  rcases processChunk_ok cfg st c st2 (some d) h with ⟨hn, _, _⟩ | ⟨c1, d2, _, hod, hd2, _, hacc, hpiv⟩
  · simp at hn
  · have hdd : d2 = d := by injection hod with hod; exact hod.symm
    subst hdd
    refine ⟨?_, ?_, ?_, ?_, ?_, ?_⟩
    · rw [hacc]
      simp [qAdd_eq]
    · rw [hpiv, bTotal_bFold, bTotal_groupbySum]
    · rw [hpiv, bTotal_bFold, bTotal_groupbySum]
    · rw [hpiv, bTotal_bFold, bTotal_groupbySum]
    · rw [hpiv, bTotal_bFold, bTotal_groupbySum]
    · rw [hd2]
      exact prepDims_mes_vstr _

theorem processChunk_delta1 (cfg : Config) (n3 : DF) (st : RunState) (c : DF)
    (st2 : RunState) (od : Option DF)
    (hg : goodIdx n3 st.idx) (hnd : (parentKeys n3).Nodup)
    (h : processChunk cfg st c = .ok (st2, od)) :
    goodIdx n3 st2.idx ∧
    st2.acc.faturamento_bruto = st.acc.faturamento_bruto + chunkParsedSum c ∧
    st2.acc.total_rows_itens = st.acc.total_rows_itens + chunkRowCount c ∧
    st2.acc.icms_estimado = st.acc.icms_estimado + chunkParsedSum c * cfg.aliq_icms ∧
    st2.acc.iss_estimado = st.acc.iss_estimado + chunkParsedSum c * cfg.aliq_iss ∧
    st2.acc.pis_estimado = st.acc.pis_estimado + chunkParsedSum c * cfg.aliq_pis ∧
    st2.acc.cofins_estimado = st.acc.cofins_estimado + chunkParsedSum c * cfg.aliq_cofins ∧
    st2.acc.irpj_estimado = st.acc.irpj_estimado ∧
    st2.acc.csll_estimado = st.acc.csll_estimado := by
  rcases processChunk_ok cfg st c st2 od h with ⟨_, hst, hpf⟩ | ⟨c1, d, hpf, _, hd, hidx, hacc, _⟩
  · subst hst
    rw [chunkParsedSum_skip c hpf, chunkRowCount_skip c hpf]
    refine ⟨hg, ?_⟩
    simp
  · have hv := prepFront_hasValor c c1 hpf
    have hms := mergeStep_sum n3 st.idx c1 hg hnd hv
    have hsum : chunkSum d = chunkParsedSum c := by
      rw [chunkParsedSum_some c c1 hpf, hd, prepDims_chunkSum]
      exact hms.1
    have hlen : d.rows.length = chunkRowCount c := by
      rw [chunkRowCount_some c c1 hpf, hd, prepDims_length]
      exact hms.2
    refine ⟨?_, ?_, ?_, ?_, ?_, ?_, ?_, ?_, ?_⟩
    · rw [hidx]
      exact mergeStep_good n3 st.idx c1 hg
    · rw [hacc]; simp [qAdd_eq, hsum]
    · rw [hacc]; simp [hlen]
    · rw [hacc]; simp [qAdd_eq, qMul_eq, hsum]
    · rw [hacc]; simp [qAdd_eq, qMul_eq, hsum]
    · rw [hacc]; simp [qAdd_eq, qMul_eq, hsum]
    · rw [hacc]; simp [qAdd_eq, qMul_eq, hsum]
    · rw [hacc]
    · rw [hacc]

theorem processChunk_skip (cfg : Config) (st : RunState) (c : DF) (st2 : RunState)
    (h : processChunk cfg st c = .ok (st2, none)) : st2 = st := by
  rcases processChunk_ok cfg st c st2 none h with ⟨_, hst, _⟩ | ⟨c1, d, _, hod, _⟩
  · exact hst
  · simp at hod

/-! ## The chunk loop -/

theorem runAux_nil (cfg : Config) (st stF : RunState) (ds : List DF)
    (h : runAux cfg st [] = .ok (stF, ds)) : stF = st ∧ ds = [] := by
  unfold runAux at h
  simp only [Except.ok.injEq, Prod.mk.injEq] at h
  exact ⟨h.1.symm, h.2.symm⟩

theorem runAux_cons (cfg : Config) (st : RunState) (c : DF) (rest : List DF)
    (stF : RunState) (ds : List DF)
    (h : runAux cfg st (c :: rest) = .ok (stF, ds)) :
    ∃ st2 od ds2, processChunk cfg st c = .ok (st2, od) ∧
      runAux cfg st2 rest = .ok (stF, ds2) ∧
      ds = (match od with | none => ds2 | some d => d :: ds2) := by
  unfold runAux at h
  split at h
  · exact absurd h (by simp)
  next st2 od hp =>
    split at h
    · exact absurd h (by simp)
    next stF2 ds2 hr =>
      simp only [Except.ok.injEq, Prod.mk.injEq] at h
      exact ⟨st2, od, ds2, hp, by rw [hr, h.1], h.2.symm⟩

theorem totalParsedSum_nil : totalParsedSum [] = 0 := rfl

theorem totalParsedSum_cons (c : DF) (rest : List DF) :
    totalParsedSum (c :: rest) = chunkParsedSum c + totalParsedSum rest := by
  simp [totalParsedSum_eq, List.map_cons, List.sum_cons]

/-- The unconditional run invariant: gross revenue and each dimension
bucket total grow, chunk by chunk, by the prepared chunk's amount sum
and by its null-respecting amount sum respectively. -/
theorem runAux_pivots (cfg : Config) :
    ∀ (chunks : List DF) (st stF : RunState) (ds : List DF),
    runAux cfg st chunks = .ok (stF, ds) →
    stF.acc.faturamento_bruto = st.acc.faturamento_bruto + (ds.map chunkSum).sum ∧
    bTotal stF.piv.mes = bTotal st.piv.mes + (ds.map (fun d => nonNullSum d "mes_ano")).sum ∧
    bTotal stF.piv.uf = bTotal st.piv.uf + (ds.map (fun d => nonNullSum d "uf_emitente")).sum ∧
    bTotal stF.piv.cfop = bTotal st.piv.cfop + (ds.map (fun d => nonNullSum d "cfop")).sum ∧
    bTotal stF.piv.ncm = bTotal st.piv.ncm + (ds.map (fun d => nonNullSum d "ncm")).sum ∧
    (∀ d ∈ ds, ∀ r ∈ d.rows, ∃ s, getV r "mes_ano" = Val.vstr s) := by
  intro chunks
  induction chunks with
  | nil =>
    intro st stF ds h
    obtain ⟨rfl, rfl⟩ := runAux_nil cfg st stF ds h
    simp
  | cons c rest ih =>
    intro st stF ds h
    obtain ⟨st2, od, ds2, hp, hr, hds⟩ := runAux_cons cfg st c rest stF ds h
    have ihr := ih st2 stF ds2 hr
    cases od with
    | none =>
      have hst : st2 = st := processChunk_skip cfg st c st2 hp
      subst hst
      simp only at hds
      subst hds
      exact ihr
    | some d =>
      have hd := processChunk_delta2 cfg st c st2 d hp
      simp only at hds
      subst hds
      refine ⟨?_, ?_, ?_, ?_, ?_, ?_⟩
      · rw [ihr.1, hd.1, List.map_cons, List.sum_cons]; ring
      · rw [ihr.2.1, hd.2.1, List.map_cons, List.sum_cons]; ring
      · rw [ihr.2.2.1, hd.2.2.1, List.map_cons, List.sum_cons]; ring
      · rw [ihr.2.2.2.1, hd.2.2.2.1, List.map_cons, List.sum_cons]; ring
      · rw [ihr.2.2.2.2.1, hd.2.2.2.2.1, List.map_cons, List.sum_cons]; ring
      · intro d2 hd2
        rcases List.mem_cons.1 hd2 with h1 | h1
        · subst h1
          exact hd.2.2.2.2.2
        · exact ihr.2.2.2.2.2 d2 h1

/-- The keyed run invariant: when no two parent rows share a key, the
accumulator grows by the chunk's own parsed sums — join multiplicities
are all one, so the merge neither multiplies nor drops amounts. -/
theorem runAux_sums (cfg : Config) (n3 : DF) (hnd : (parentKeys n3).Nodup) :
    ∀ (chunks : List DF) (st stF : RunState) (ds : List DF),
    runAux cfg st chunks = .ok (stF, ds) → goodIdx n3 st.idx →
    goodIdx n3 stF.idx ∧
    stF.acc.faturamento_bruto = st.acc.faturamento_bruto + totalParsedSum chunks ∧
    stF.acc.total_rows_itens = st.acc.total_rows_itens + (chunks.map chunkRowCount).sum ∧
    stF.acc.icms_estimado = st.acc.icms_estimado + totalParsedSum chunks * cfg.aliq_icms ∧
    stF.acc.iss_estimado = st.acc.iss_estimado + totalParsedSum chunks * cfg.aliq_iss ∧
    stF.acc.pis_estimado = st.acc.pis_estimado + totalParsedSum chunks * cfg.aliq_pis ∧
    stF.acc.cofins_estimado = st.acc.cofins_estimado + totalParsedSum chunks * cfg.aliq_cofins ∧
    stF.acc.irpj_estimado = st.acc.irpj_estimado ∧
    stF.acc.csll_estimado = st.acc.csll_estimado := by
  intro chunks
  induction chunks with
  | nil =>
    intro st stF ds h hg
    obtain ⟨rfl, rfl⟩ := runAux_nil cfg st stF ds h
    simp [totalParsedSum_nil, hg]
  | cons c rest ih =>
    intro st stF ds h hg
    obtain ⟨st2, od, ds2, hp, hr, _⟩ := runAux_cons cfg st c rest stF ds h
    have hd := processChunk_delta1 cfg n3 st c st2 od hg hnd hp
    have ihr := ih st2 stF ds2 hr hd.1
    rw [totalParsedSum_cons, List.map_cons, List.sum_cons]
    refine ⟨ihr.1, ?_, ?_, ?_, ?_, ?_, ?_, ?_, ?_⟩
    · rw [ihr.2.1, hd.2.1]; ring
    · rw [ihr.2.2.1, hd.2.2.1]; omega
    · rw [ihr.2.2.2.1, hd.2.2.2.1]; ring
    · rw [ihr.2.2.2.2.1, hd.2.2.2.2.1]; ring
    · rw [ihr.2.2.2.2.2.1, hd.2.2.2.2.2.1]; ring
    · rw [ihr.2.2.2.2.2.2.1, hd.2.2.2.2.2.2.1]; ring
    · rw [ihr.2.2.2.2.2.2.2.1, hd.2.2.2.2.2.2.2.1]
    · rw [ihr.2.2.2.2.2.2.2.2, hd.2.2.2.2.2.2.2.2]

/-! ## Whole-run characterization -/

theorem process_ok_elim (cfg : Config) (notas : DF) (chunks : List DF) (out : Output)
    (h : process cfg notas chunks = .ok out) :
    ∃ n3 stF ds, prepNotas notas = .ok n3 ∧
      runAux cfg (initState n3) chunks = .ok (stF, ds) ∧
      out = ⟨finalize cfg stF.acc, stF.piv.mes, stF.piv.uf, stF.piv.cfop, stF.piv.ncm⟩ := by
  unfold process at h
  split at h
  · exact absurd h (by simp)
  next n3 hn =>
    split at h
    · exact absurd h (by simp)
    next stF ds hr =>
      refine ⟨n3, stF, ds, hn, hr, ?_⟩
      injection h with h
      exact h.symm

theorem runPrepared_elim (cfg : Config) (notas : DF) (chunks : List DF) (dfs : List DF)
    (h : runPrepared cfg notas chunks = .ok dfs) :
    ∃ n3 stF, prepNotas notas = .ok n3 ∧
      runAux cfg (initState n3) chunks = .ok (stF, dfs) := by
  unfold runPrepared at h
  split at h
  · exact absurd h (by simp)
  next n3 hn =>
    split at h
    · exact absurd h (by simp)
    next stF ds hr =>
      injection h with h
      subst h
      exact ⟨n3, stF, hn, hr⟩

theorem initState_good (n3 : DF) : goodIdx n3 (initState n3).idx :=
  ⟨rfl, Or.inl rfl⟩

theorem finalize_fixed (cfg : Config) (a : Accum) :
    (finalize cfg a).faturamento_bruto = a.faturamento_bruto ∧
    (finalize cfg a).total_rows_itens = a.total_rows_itens ∧
    (finalize cfg a).icms_estimado = a.icms_estimado ∧
    (finalize cfg a).iss_estimado = a.iss_estimado ∧
    (finalize cfg a).pis_estimado = a.pis_estimado ∧
    (finalize cfg a).cofins_estimado = a.cofins_estimado := by
  unfold finalize
  repeat' split
  all_goals simp

theorem finalize_presumido (cfg : Config) (a : Accum)
    (h1 : cfg.estimar_irpj_csll = true) (h2 : cfg.enquadramento = "lucro_presumido") :
    (finalize cfg a).irpj_estimado = a.faturamento_bruto * cfg.presuncao * cfg.aliquota_irpj ∧
    (finalize cfg a).csll_estimado = a.faturamento_bruto * cfg.presuncao * cfg.aliquota_csll := by
  unfold finalize
  rw [if_pos h1, if_pos h2]
  simp [qMul_eq]

theorem finalize_simples (cfg : Config) (a : Accum)
    (h1 : ¬ cfg.enquadramento = "lucro_presumido")
    (h2 : ¬ cfg.enquadramento = "lucro_real") :
    (finalize cfg a).irpj_estimado = 0 ∧ (finalize cfg a).csll_estimado = 0 := by
  unfold finalize
  repeat' split
  all_goals exact ⟨rfl, rfl⟩

theorem Accum.ext2 (a b : Accum)
    (h1 : a.total_rows_itens = b.total_rows_itens)
    (h2 : a.faturamento_bruto = b.faturamento_bruto)
    (h3 : a.icms_estimado = b.icms_estimado)
    (h4 : a.iss_estimado = b.iss_estimado)
    (h5 : a.pis_estimado = b.pis_estimado)
    (h6 : a.cofins_estimado = b.cofins_estimado)
    (h7 : a.irpj_estimado = b.irpj_estimado)
    (h8 : a.csll_estimado = b.csll_estimado) : a = b := by
  cases a
  cases b
  simp_all

/-! ## Skipped-chunk equalities (for the error-handling claim) -/

theorem prepFront_skip (c : DF) (h : childKeyed c = none) : prepFront c = .ok none := by
  unfold prepFront
  rw [h]

theorem processChunk_skipped (cfg : Config) (st : RunState) (c : DF)
    (h : childKeyed c = none) : processChunk cfg st c = .ok (st, none) := by
  unfold processChunk
  rw [prepFront_skip c h]

theorem runAux_skipped (cfg : Config) (c : DF) (h : childKeyed c = none) :
    ∀ (pre post : List DF) (st : RunState),
    runAux cfg st (pre ++ c :: post) = runAux cfg st (pre ++ post) := by
  intro pre
  induction pre with
  | nil =>
    intro post st
    simp only [List.nil_append]
    rw [runAux, processChunk_skipped cfg st c h]
    dsimp only
    cases hr : runAux cfg st post with
    | error e => rfl
    | ok p =>
      cases p with
      | mk stF ds => rfl
  | cons c2 rest ih =>
    intro post st
    simp only [List.cons_append]
    rw [runAux, runAux]
    cases hp : processChunk cfg st c2 with
    | error e => rfl
    | ok p =>
      cases p with
      | mk st2 od =>
        dsimp only
        rw [ih post st2]

/-! ## Regime-field irrelevance of the chunk loop -/

theorem runAux_enq_irrelevant (cfg : Config) (e : String) :
    ∀ (chunks : List DF) (st : RunState),
    runAux { cfg with enquadramento := e } st chunks = runAux cfg st chunks := by
  intro chunks
  induction chunks with
  | nil => intro st; rfl
  | cons c rest ih =>
    intro st
    rw [runAux, runAux]
    have hpc : processChunk { cfg with enquadramento := e } st c = processChunk cfg st c := rfl
    rw [hpc]
    cases hp : processChunk cfg st c with
    | error e2 => rfl
    | ok p =>
      cases p with
      | mk st2 od =>
        dsimp only
        rw [ih st2]

/-! ## The dead `"unknown"` branch: `data_emissao_parsed` always exists -/

theorem dimDate_hasCol_dep (df : DF) : (dimDate df).hasCol "data_emissao_parsed" = true := by
  unfold dimDate
  split
  · exact hasCol_setColF_self _ _ _
  · split
    · exact hasCol_setColF_self _ _ _
    · exact hasCol_setColF_self _ _ _

theorem dimUfA_hasCol_dep (df : DF) (h : df.hasCol "data_emissao_parsed" = true) :
    (dimUfA df).hasCol "data_emissao_parsed" = true := by
  unfold dimUfA
  split
  next u ho =>
    have hu : ¬ u = "data_emissao_parsed" := by
      rcases orElse_some _ _ _ ho with h1 | h1 <;>
      · have := find_best_column_single _ _ _ h1
        intro he
        rw [he] at this
        exact absurd this (by decide)
    split
    · exact hasCol_renameCol_mono df u _ _ hu h
    · exact h
  next => exact h

theorem dimUfB_hasCol_dep (df : DF) (h : df.hasCol "data_emissao_parsed" = true) :
    (dimUfB df).hasCol "data_emissao_parsed" = true := by
  unfold dimUfB
  split
  · exact h
  · exact hasCol_setColF_mono df _ _ _ h

theorem dimCfopA_hasCol_dep (df : DF) (h : df.hasCol "data_emissao_parsed" = true) :
    (dimCfopA df).hasCol "data_emissao_parsed" = true := by
  unfold dimCfopA
  split
  next u ho =>
    have hu : ¬ u = "data_emissao_parsed" := by
      have := find_best_column_single _ _ _ ho
      intro he
      rw [he] at this
      exact absurd this (by decide)
    split
    · exact hasCol_renameCol_mono df u _ _ hu h
    · exact h
  next => exact h

theorem dimCfopB_hasCol_dep (df : DF) (h : df.hasCol "data_emissao_parsed" = true) :
    (dimCfopB df).hasCol "data_emissao_parsed" = true := by
  unfold dimCfopB
  split
  · exact h
  · exact hasCol_setColF_mono df _ _ _ h

theorem dimNcmA_hasCol_dep (df : DF) (h : df.hasCol "data_emissao_parsed" = true) :
    (dimNcmA df).hasCol "data_emissao_parsed" = true := by
  unfold dimNcmA
  split
  next u ho =>
    have hu : ¬ u = "data_emissao_parsed" := by
      have := find_best_column_single _ _ _ ho
      intro he
      rw [he] at this
      exact absurd this (by decide)
    split
    · exact hasCol_renameCol_mono df u _ _ hu h
    · exact h
  next => exact h

theorem dimNcmB_hasCol_dep (df : DF) (h : df.hasCol "data_emissao_parsed" = true) :
    (dimNcmB df).hasCol "data_emissao_parsed" = true := by
  unfold dimNcmB
  split
  · exact h
  · exact hasCol_setColF_mono df _ _ _ h

/-- By the time `mes_ano` is derived, `data_emissao_parsed` always
exists — so the `"unknown"` labelling branch is unreachable. -/
theorem prepDims_dep_exists (df : DF) :
    (dimNcm (dimCfop (dimUfB (dimUfA (dimDate df))))).hasCol "data_emissao_parsed" = true := by
  unfold dimNcm dimCfop
  exact dimNcmB_hasCol_dep _ (dimNcmA_hasCol_dep _ (dimCfopB_hasCol_dep _
    (dimCfopA_hasCol_dep _ (dimUfB_hasCol_dep _ (dimUfA_hasCol_dep _
      (dimDate_hasCol_dep df))))))

/-! ## Unmatched-join characterizations (for the positional-join claim) -/

theorem flatMap_eq_map (rows : List Row) (g : Row → List Row) (f : Row → Row)
    (h : ∀ r ∈ rows, g r = [f r]) : rows.flatMap g = rows.map f := by
  induction rows with
  | nil => rfl
  | cons r t ih =>
    rw [List.flatMap_cons, h r (by simp), List.map_cons,
      ih (fun r2 hr2 => h r2 (List.mem_cons_of_mem r hr2))]
    rfl

theorem riContrib_unmatched (l r : DF) (key : String) (ridx : List Val) (lr : Row)
    (h : ∀ v ∈ ridx, ¬ v = getV lr key) :
    riContrib l r key ridx lr = [lr ++ nullRow (riCols l r)] := by
  unfold riContrib
  by_cases hnull : getV lr key = Val.vnull
  · simp only [if_pos hnull]
  · simp only [if_neg hnull]
    have hfil : (r.rows.zip ridx).filter (fun p => decide (p.2 = getV lr key)) = [] := by
      rw [List.filter_eq_nil_iff]
      intro p hp
      simp only [decide_eq_true_eq]
      exact h p.2 (List.of_mem_zip hp).2
    rw [hfil]

theorem onContrib_unmatched (l r : DF) (key : String) (lr : Row)
    (h : ∀ rr ∈ r.rows, ¬ getV rr key = getV lr key) :
    onContrib l r key lr = [lr ++ nullRow (onCols l r key)] := by
  unfold onContrib
  by_cases hnull : getV lr key = Val.vnull
  · simp only [if_pos hnull]
  · simp only [if_neg hnull]
    have hfil : r.rows.filter (fun rr => decide (getV rr key = getV lr key)) = [] := by
      rw [List.filter_eq_nil_iff]
      intro rr hrr
      simp only [decide_eq_true_eq]
      exact h rr hrr
    rw [hfil]

theorem mergeRightIndex_unmatched (l : DF) (key : String) (r : DF) (ridx : List Val)
    (h : ∀ lr ∈ l.rows, ∀ v ∈ ridx, ¬ v = getV lr key) :
    (mergeRightIndex l key r ridx).rows
      = l.rows.map (fun lr => lr ++ nullRow (riCols l r)) := by
  exact flatMap_eq_map l.rows _ _ (fun lr hlr => riContrib_unmatched l r key ridx lr (h lr hlr))

theorem mergeOn_unmatched (l r : DF) (key : String)
    (h : ∀ lr ∈ l.rows, ∀ rr ∈ r.rows, ¬ getV rr key = getV lr key) :
    (mergeOn l r key).rows = l.rows.map (fun lr => lr ++ nullRow (onCols l r key)) := by
  exact flatMap_eq_map l.rows _ _ (fun lr hlr => onContrib_unmatched l r key lr (h lr hlr))

/-! ## Row-label renaming (for the child amount-resolution claim) -/

theorem getV_mapKeys_rename (r : Row) (u t : String)
    (hnt : ∀ p ∈ r, ¬ p.1 = t) :
    getV (mapKeys (fun k => if k = u then t else k) r) t = getV r u := by
  induction r with
  | nil => rfl
  | cons p tr ih =>
    by_cases hp : p.1 = u
    · simp [mapKeys, List.map_cons, if_pos hp, getV]
    · have hpt : ¬ p.1 = t := hnt p (by simp)
      simp only [mapKeys, List.map_cons, if_neg hp, getV, if_neg hpt, if_neg hp]
      exact ih (fun p2 hp2 => hnt p2 (List.mem_cons_of_mem p hp2))

theorem orElse_none {α : Type} (a b : Option α) (h : (a <|> b) = none) :
    a = none ∧ b = none := by
  cases a with
  | none => exact ⟨rfl, by simpa using h⟩
  | some x => simp at h

/-! # The claims -/

/-- C3: the numeric parser satisfies `parse("2.970,00") = parse("2970,00")
= 2970.0`, `parse("2970.00") = 2970.0`, `parse("") = 0.0` and
`parse(None) = 0.0`; `"2970.00"` goes through the direct `float()` parse
(its cleaned form contains no comma, so neither Brazilian branch fires,
and `float()` accepts it directly), and in particular it is not misread
as the thousands-grouped `297000`. -/
theorem claim3_parser_values :
    parse_valor_brasileiro (.vstr "2.970,00") = 2970 ∧
    parse_valor_brasileiro (.vstr "2970,00") = 2970 ∧
    parse_valor_brasileiro (.vstr "2970.00") = 2970 ∧
    parse_valor_brasileiro (.vstr "") = 0 ∧
    parse_valor_brasileiro .vnull = 0 ∧
    ("2970.00".toList.filter keepNumChar).contains ',' = false ∧
    pyFloat "2970.00" = some 2970 ∧
    ¬ parse_valor_brasileiro (.vstr "2970.00") = 297000 := by
  decide

/-- C9: if the parent table's key column — or, the key resolved, its
amount column — cannot be resolved, the run aborts fatally with no
output: `process` returns no `Output` at all, so neither the summary
record nor any pivot table exists. -/
theorem claim9_parent_resolution_fatal (cfg : Config) (notas : DF) (chunks : List DF)
    (h : keyColResolve notas.normCols.cols = none ∨
      ∃ k, keyColResolve notas.normCols.cols = some k ∧
        notasValorCol (notas.normCols.renameCol k "chave_acesso").cols = none) :
    (process cfg notas chunks).toOption = none := by
  cases hp : process cfg notas chunks with
  | error e => rfl
  | ok out =>
    exfalso
    obtain ⟨n3, stF, ds, hn, _, _⟩ := process_ok_elim cfg notas chunks out hp
    unfold prepNotas at hn
    split at hn
    · exact absurd hn (by simp)
    · dsimp only at hn
      split at hn
      · exact absurd hn (by simp)
      next k hk2 =>
        split at hn
        · exact absurd hn (by simp)
        next vc hv2 =>
          rcases h with hk | ⟨k2, hk, hv⟩
          · rw [hk] at hk2
            exact absurd hk2 (by simp)
          · rw [hk] at hk2
            injection hk2 with hk2
            subst hk2
            rw [hv] at hv2
            exact absurd hv2 (by simp)

/-- Witness for C9: a parent with no key-like column produces no output. -/
theorem claim9_witness : (process defaultConfig notasNoKeyW []).toOption = none :=
  claim9_parent_resolution_fatal defaultConfig notasNoKeyW [] (Or.inl (by decide))

/-- C4, amended: a child batch whose key column cannot be resolved is
skipped entirely and the run continues, its amounts contributing nothing
— but the count of skipped batches/rows is NOT surfaced to the caller:
the run's entire output is identical to the output of the same run
without the skipped batch (the skip is only printed to the console,
which the output does not contain). -/
theorem claim4_skipped_batch_amended (cfg : Config) (notas : DF) (pre post : List DF)
    (c : DF) (h : childKeyed c = none) :
    process cfg notas (pre ++ c :: post) = process cfg notas (pre ++ post) := by
  unfold process
  cases hn : prepNotas notas with
  | error e => rfl
  | ok n3 =>
    dsimp only
    rw [runAux_skipped cfg c h pre post (initState n3)]

/-- Counterexample for C4 as stated: a run containing a nonempty,
nonzero-amount, key-less batch produces an output bit-identical to the
run without it, so no component of the result reflects the skipped
count. -/
theorem claim4_counterexample :
    childKeyed chSkW = none ∧
    ¬ chSkW.rows = [] ∧
    ¬ parse_valor_brasileiro (getV (chSkW.rows.headD []) "valor_total") = 0 ∧
    (process defaultConfig notasW [chSkW, wChunkA]).toOption
      = (process defaultConfig notasW [wChunkA]).toOption ∧
    ¬ (process defaultConfig notasW [wChunkA]).toOption = none := by
  decide

/-- Witness for C4 (amended): the skipped-batch equality at a concrete
run. -/
theorem claim4_witness :
    process defaultConfig notasW ([] ++ chSkW :: [wChunkA])
      = process defaultConfig notasW ([] ++ [wChunkA]) :=
  claim4_skipped_batch_amended defaultConfig notasW [] [wChunkA] chSkW (by decide)

/-- C6, amended: a row whose emission date is absent or unparseable
(i.e. whose `data_emissao_parsed` cell is the null timestamp) is
labelled with the literal string `"NaT"` — the `str()` of a null pandas
period — not `"unknown"`: the `"unknown"` branch of the code is dead,
because `data_emissao_parsed` is created for every chunk
(`prepDims_dep_exists`). -/
theorem claim6_nat_label_amended (d : DF) (r : Row)
    (hr : r ∈ (prepDims d).rows)
    (hnull : getV r "data_emissao_parsed" = Val.vnull) :
    getV r "mes_ano" = Val.vstr "NaT" := by
  unfold prepDims dimMes at hr
  rw [if_pos (prepDims_dep_exists d)] at hr
  simp only [DF.setColF] at hr
  obtain ⟨r0, _, rfl⟩ := List.mem_map.1 hr
  have hdep : getV r0 "data_emissao_parsed" = Val.vnull := by
    rw [← getV_setV_ne r0 "data_emissao_parsed" "mes_ano" _ (by decide)]
    exact hnull
  rw [getV_setV_self, hdep]
  rfl

/-- Counterexample for C6 as stated: a concrete run with no date column
anywhere accumulates the batch's amount under the label `"NaT"`; no
`"unknown"` bucket exists. -/
theorem claim6_counterexample :
    (process defaultConfig notasW [wChunkA]).toOption.map
        (fun o => (bLookup o.pivot_mes (.vstr "unknown"),
                   bLookup o.pivot_mes (.vstr "NaT")))
      = some (none, some 1000) := by
  decide

/-- Witness for C6 (amended): the `"NaT"` labelling at a concrete
prepared row with a null parsed date. -/
theorem claim6_witness :
    wRow6 ∈ wPrep6.rows ∧
    getV wRow6 "data_emissao_parsed" = Val.vnull ∧
    getV wRow6 "mes_ano" = Val.vstr "NaT" :=
  ⟨by decide, by decide,
   claim6_nat_label_amended ⟨["x"], [[("x", .vstr "v")]]⟩ wRow6 (by decide) (by decide)⟩

/-- C8: for two runs identical except for the regime — `lucro_presumido`
versus `simples_nacional` — with positive final gross revenue `G` and
non-zero presumption, IRPJ and CSLL rates: under the presumed-profit
regime `irpj = G × presumption × irpj_rate` and
`csll = G × presumption × csll_rate`, both non-zero; under the
simplified regime both are exactly `0`; and the gross revenue and the
four proportional taxes are identical between the two runs. -/
theorem claim8_regime_switch (cfg cfg2 : Config) (notas : DF) (chunks : List DF)
    (out out2 : Output)
    (hcfg2 : cfg2 = { cfg with enquadramento := "simples_nacional" })
    (henq : cfg.enquadramento = "lucro_presumido")
    (hest : cfg.estimar_irpj_csll = true)
    (h1 : process cfg notas chunks = .ok out)
    (h2 : process cfg2 notas chunks = .ok out2)
    (hG : 0 < out.resumo.faturamento_bruto)
    (hpres : ¬ cfg.presuncao = 0)
    (hirpj : ¬ cfg.aliquota_irpj = 0)
    (hcsll : ¬ cfg.aliquota_csll = 0) :
    out.resumo.irpj_estimado
      = out.resumo.faturamento_bruto * cfg.presuncao * cfg.aliquota_irpj ∧
    out.resumo.csll_estimado
      = out.resumo.faturamento_bruto * cfg.presuncao * cfg.aliquota_csll ∧
    ¬ out.resumo.irpj_estimado = 0 ∧
    ¬ out.resumo.csll_estimado = 0 ∧
    out2.resumo.irpj_estimado = 0 ∧
    out2.resumo.csll_estimado = 0 ∧
    out2.resumo.faturamento_bruto = out.resumo.faturamento_bruto ∧
    out2.resumo.icms_estimado = out.resumo.icms_estimado ∧
    out2.resumo.iss_estimado = out.resumo.iss_estimado ∧
    out2.resumo.pis_estimado = out.resumo.pis_estimado ∧
    out2.resumo.cofins_estimado = out.resumo.cofins_estimado := by
  subst hcfg2
  obtain ⟨n3, stF, ds, hn, hr, hout⟩ := process_ok_elim cfg notas chunks out h1
  obtain ⟨n3b, stFb, dsb, hnb, hrb, houtb⟩ := process_ok_elim _ notas chunks out2 h2
  rw [hn] at hnb
  injection hnb with hnb
  subst hnb
  rw [runAux_enq_irrelevant cfg "simples_nacional" chunks (initState n3), hr] at hrb
  injection hrb with hrb
  have hst : stFb = stF := (congrArg Prod.fst hrb).symm
  rw [hst] at houtb
  have hfix := finalize_fixed cfg stF.acc
  have hfix2 := finalize_fixed { cfg with enquadramento := "simples_nacional" } stF.acc
  have hfat : out.resumo.faturamento_bruto = stF.acc.faturamento_bruto := by
    rw [hout]
    exact hfix.1
  have hpre := finalize_presumido cfg stF.acc hest henq
  have hsim := finalize_simples { cfg with enquadramento := "simples_nacional" } stF.acc
    (by simp) (by simp)
  have hirpjv : out.resumo.irpj_estimado
      = out.resumo.faturamento_bruto * cfg.presuncao * cfg.aliquota_irpj := by
    rw [hfat, hout]
    exact hpre.1
  have hcsllv : out.resumo.csll_estimado
      = out.resumo.faturamento_bruto * cfg.presuncao * cfg.aliquota_csll := by
    rw [hfat, hout]
    exact hpre.2
  refine ⟨hirpjv, hcsllv, ?_, ?_, ?_, ?_, ?_, ?_, ?_, ?_, ?_⟩
  · rw [hirpjv]
    exact mul_ne_zero (mul_ne_zero (ne_of_gt hG) hpres) hirpj
  · rw [hcsllv]
    exact mul_ne_zero (mul_ne_zero (ne_of_gt hG) hpres) hcsll
  · rw [houtb]
    exact hsim.1
  · rw [houtb]
    exact hsim.2
  · rw [houtb, hout]
    exact hfix2.1.trans hfix.1.symm
  · rw [houtb, hout]
    exact hfix2.2.2.1.trans hfix.2.2.1.symm
  · rw [houtb, hout]
    exact hfix2.2.2.2.1.trans hfix.2.2.2.1.symm
  · rw [houtb, hout]
    exact hfix2.2.2.2.2.1.trans hfix.2.2.2.2.1.symm
  · rw [houtb, hout]
    exact hfix2.2.2.2.2.2.trans hfix.2.2.2.2.2.symm

/-- Witness for C8: the two regime-twin runs over `notasW`/`wChunkA`. -/
theorem claim8_witness :
    wOut8.resumo.irpj_estimado
      = wOut8.resumo.faturamento_bruto * defaultConfig.presuncao * defaultConfig.aliquota_irpj ∧
    wOut8.resumo.csll_estimado
      = wOut8.resumo.faturamento_bruto * defaultConfig.presuncao * defaultConfig.aliquota_csll ∧
    ¬ wOut8.resumo.irpj_estimado = 0 ∧
    ¬ wOut8.resumo.csll_estimado = 0 ∧
    wOut8b.resumo.irpj_estimado = 0 ∧
    wOut8b.resumo.csll_estimado = 0 ∧
    wOut8b.resumo.faturamento_bruto = wOut8.resumo.faturamento_bruto ∧
    wOut8b.resumo.icms_estimado = wOut8.resumo.icms_estimado ∧
    wOut8b.resumo.iss_estimado = wOut8.resumo.iss_estimado ∧
    wOut8b.resumo.pis_estimado = wOut8.resumo.pis_estimado ∧
    wOut8b.resumo.cofins_estimado = wOut8.resumo.cofins_estimado :=
  claim8_regime_switch defaultConfig cfgSimplesW notasW [wChunkA] wOut8 wOut8b
    (by decide) (by decide) (by decide) (by decide) (by decide) (by decide)
    (by decide) (by decide) (by decide)

/-- C1, amended: the claim holds provided no child row can match more
than one parent row — e.g. when the parent's access keys are pairwise
distinct.  Then the final gross revenue equals the sum of every
processed (non-skipped) batch's parsed `item_amount` values, regardless
of join success.  (The counterexample below shows the unrestricted claim
is false: with duplicate parent keys the left join multiplies child rows
and their amounts are counted once per matching parent row.) -/
theorem claim1_revenue_amended (cfg : Config) (notas : DF) (chunks : List DF)
    (n3 : DF) (out : Output)
    (hn : prepNotas notas = .ok n3)
    (hnd : (parentKeys n3).Nodup)
    (h : process cfg notas chunks = .ok out) :
    out.resumo.faturamento_bruto = totalParsedSum chunks := by
  obtain ⟨n3b, stF, ds, hnb, hr, hout⟩ := process_ok_elim cfg notas chunks out h
  rw [hn] at hnb
  injection hnb with hnb
  subst hnb
  have hs := runAux_sums cfg n3 hnd chunks (initState n3) stF ds hr (initState_good n3)
  rw [hout]
  show (finalize cfg stF.acc).faturamento_bruto = totalParsedSum chunks
  rw [(finalize_fixed cfg stF.acc).1, hs.2.1]
  show (0 : ℚ) + totalParsedSum chunks = totalParsedSum chunks
  ring

/-- Counterexample for C1 as stated: with two parent rows sharing the
key `K`, a child row keyed `K` (in a non-first batch, hence joined on
the key column) is duplicated by the left join and counted twice —
gross revenue `25` against a parsed-amount total of `15`. -/
theorem claim1_counterexample :
    (process defaultConfig notasDupW [chB1W, chB2W]).toOption.map
        (fun o => o.resumo.faturamento_bruto) = some 25 ∧
    totalParsedSum [chB1W, chB2W] = 15 ∧
    ¬ (25 : ℚ) = 15 := by
  decide

/-- Witness for C1 (amended): the revenue equation at a concrete
two-batch run. -/
theorem claim1_witness :
    wOut1.resumo.faturamento_bruto = totalParsedSum [wChunkA, wChunkB] :=
  claim1_revenue_amended defaultConfig notasW [wChunkA, wChunkB] n3W wOut1
    (by decide) (by decide) (by decide)

/-- C2, amended: at the end of every run, the month-year pivot total
always equals the gross revenue exactly (missing dates are bucketed
under the string label `"NaT"`, never dropped); the region, CFOP and NCM
pivot totals equal the gross revenue provided no processed row carries a
null value in that dimension column — rows with a null dimension value
are dropped by the group-by, which the counterexample below exhibits
(parent-side region on join-unmatched rows).  Arithmetic is exact
(rationals model the floats), so "within floating-point tolerance"
becomes exact equality. -/
theorem claim2_pivot_totals_amended (cfg : Config) (notas : DF) (chunks : List DF)
    (out : Output) (dfs : List DF)
    (h : process cfg notas chunks = .ok out)
    (hp : runPrepared cfg notas chunks = .ok dfs) :
    bTotal out.pivot_mes = out.resumo.faturamento_bruto ∧
    ((∀ d ∈ dfs, ∀ r ∈ d.rows, ¬ getV r "uf_emitente" = Val.vnull) →
      bTotal out.pivot_uf = out.resumo.faturamento_bruto) ∧
    ((∀ d ∈ dfs, ∀ r ∈ d.rows, ¬ getV r "cfop" = Val.vnull) →
      bTotal out.pivot_cfop = out.resumo.faturamento_bruto) ∧
    ((∀ d ∈ dfs, ∀ r ∈ d.rows, ¬ getV r "ncm" = Val.vnull) →
      bTotal out.pivot_ncm = out.resumo.faturamento_bruto) := by
  obtain ⟨n3, stF, ds, hn, hr, hout⟩ := process_ok_elim cfg notas chunks out h
  obtain ⟨n3b, stFb, hnb, hrb⟩ := runPrepared_elim cfg notas chunks dfs hp
  rw [hn] at hnb
  injection hnb with hnb
  subst hnb
  rw [hr] at hrb
  injection hrb with hrb
  have hds : ds = dfs := congrArg Prod.snd hrb
  subst hds
  have hpv := runAux_pivots cfg chunks (initState n3) stF ds hr
  subst hout
  have hfat : (finalize cfg stF.acc).faturamento_bruto = (ds.map chunkSum).sum := by
    rw [(finalize_fixed cfg stF.acc).1, hpv.1]
    show (0 : ℚ) + _ = _
    rw [zero_add]
  refine ⟨?_, ?_, ?_, ?_⟩
  · show bTotal stF.piv.mes = (finalize cfg stF.acc).faturamento_bruto
    rw [hfat, hpv.2.1]
    show (0 : ℚ) + _ = _
    rw [zero_add]
    refine congrArg List.sum (List.map_congr_left (fun d hd => ?_))
    refine nonNullSum_eq_chunkSum d _ (fun r hr2 => ?_)
    obtain ⟨s, hs⟩ := hpv.2.2.2.2.2 d hd r hr2
    rw [hs]
    simp
  · intro hyp
    show bTotal stF.piv.uf = (finalize cfg stF.acc).faturamento_bruto
    rw [hfat, hpv.2.2.1]
    show (0 : ℚ) + _ = _
    rw [zero_add]
    refine congrArg List.sum (List.map_congr_left (fun d hd => ?_))
    exact nonNullSum_eq_chunkSum d _ (hyp d hd)
  · intro hyp
    show bTotal stF.piv.cfop = (finalize cfg stF.acc).faturamento_bruto
    rw [hfat, hpv.2.2.2.1]
    show (0 : ℚ) + _ = _
    rw [zero_add]
    refine congrArg List.sum (List.map_congr_left (fun d hd => ?_))
    exact nonNullSum_eq_chunkSum d _ (hyp d hd)
  · intro hyp
    show bTotal stF.piv.ncm = (finalize cfg stF.acc).faturamento_bruto
    rw [hfat, hpv.2.2.2.2.1]
    show (0 : ℚ) + _ = _
    rw [zero_add]
    refine congrArg List.sum (List.map_congr_left (fun d hd => ?_))
    exact nonNullSum_eq_chunkSum d _ (hyp d hd)

/-- Counterexample for C2 as stated: the parent carries `uf_emitente`;
the single chunk is joined (first batch, positional index) without a
match, so its one row's parent-side region is null and the group-by
drops it — the region pivot sums to `0` while gross revenue is `10`. -/
theorem claim2_counterexample :
    (process defaultConfig notasUfW [chCW]).toOption.map
        (fun o => (o.resumo.faturamento_bruto, bTotal o.pivot_uf,
                   bTotal o.pivot_mes, bTotal o.pivot_cfop, bTotal o.pivot_ncm))
      = some (10, 0, 10, 10, 10) ∧
    ¬ (0 : ℚ) = 10 := by
  decide

/-- Witness for C2 (amended): a run whose prepared chunks carry no null
dimension values, where all four pivot totals equal the gross revenue. -/
theorem claim2_witness :
    bTotal wOut2.pivot_mes = wOut2.resumo.faturamento_bruto ∧
    bTotal wOut2.pivot_uf = wOut2.resumo.faturamento_bruto ∧
    bTotal wOut2.pivot_cfop = wOut2.resumo.faturamento_bruto ∧
    bTotal wOut2.pivot_ncm = wOut2.resumo.faturamento_bruto := by
  have h := claim2_pivot_totals_amended defaultConfig notasW [wChunkA] wOut2 wDfs2
    (by decide) (by decide)
  exact ⟨h.1, h.2.1 (by decide), h.2.2.1 (by decide), h.2.2.2 (by decide)⟩

theorem totalParsedSum_append (a b : List DF) :
    totalParsedSum (a ++ b) = totalParsedSum a + totalParsedSum b := by
  simp [totalParsedSum_eq, List.map_append, List.sum_append]

/-- C7, amended: with pairwise-distinct parent keys, the accumulator —
row count, gross revenue, the four proportional taxes and the derived
IRPJ/CSLL — is strictly additive and order-independent across batches,
and no deduplication occurs: feeding the stream twice doubles revenue
and row count.  The dimension buckets, however, are NOT
order-independent (dropped from the claim): the first processed batch is
joined against the positional index, so which batch comes first changes
the join results — the counterexample below exhibits two permuted runs
with different region pivots. -/
theorem claim7_additivity_amended (cfg : Config) (notas : DF)
    (chunks chunks2 : List DF) (n3 : DF) (out out2 out3 : Output)
    (hn : prepNotas notas = .ok n3)
    (hnd : (parentKeys n3).Nodup)
    (hperm : chunks.Perm chunks2)
    (h1 : process cfg notas chunks = .ok out)
    (h2 : process cfg notas chunks2 = .ok out2)
    (h3 : process cfg notas (chunks ++ chunks) = .ok out3) :
    out2.resumo = out.resumo ∧
    out3.resumo.faturamento_bruto
      = out.resumo.faturamento_bruto + out.resumo.faturamento_bruto ∧
    out3.resumo.total_rows_itens
      = out.resumo.total_rows_itens + out.resumo.total_rows_itens := by
  obtain ⟨m1, stF1, ds1, hn1, hr1, hout1⟩ := process_ok_elim cfg notas chunks out h1
  obtain ⟨m2, stF2, ds2, hn2, hr2, hout2⟩ := process_ok_elim cfg notas chunks2 out2 h2
  obtain ⟨m3, stF3, ds3, hn3, hr3, hout3⟩ :=
    process_ok_elim cfg notas (chunks ++ chunks) out3 h3
  rw [hn] at hn1 hn2 hn3
  injection hn1 with hn1
  injection hn2 with hn2
  injection hn3 with hn3
  subst hn1
  subst hn2
  subst hn3
  have hs1 := runAux_sums cfg n3 hnd chunks (initState n3) stF1 ds1 hr1 (initState_good n3)
  have hs2 := runAux_sums cfg n3 hnd chunks2 (initState n3) stF2 ds2 hr2 (initState_good n3)
  have hs3 := runAux_sums cfg n3 hnd (chunks ++ chunks) (initState n3) stF3 ds3 hr3
    (initState_good n3)
  have hT : totalParsedSum chunks2 = totalParsedSum chunks := by
    rw [totalParsedSum_eq, totalParsedSum_eq]
    exact ((hperm.map chunkParsedSum).sum_eq).symm
  have hR : (chunks2.map chunkRowCount).sum = (chunks.map chunkRowCount).sum :=
    ((hperm.map chunkRowCount).sum_eq).symm
  have hacc : stF2.acc = stF1.acc := by
    refine Accum.ext2 _ _ ?_ ?_ ?_ ?_ ?_ ?_ ?_ ?_
    · rw [hs2.2.2.1, hs1.2.2.1, hR]
    · rw [hs2.2.1, hs1.2.1, hT]
    · rw [hs2.2.2.2.1, hs1.2.2.2.1, hT]
    · rw [hs2.2.2.2.2.1, hs1.2.2.2.2.1, hT]
    · rw [hs2.2.2.2.2.2.1, hs1.2.2.2.2.2.1, hT]
    · rw [hs2.2.2.2.2.2.2.1, hs1.2.2.2.2.2.2.1, hT]
    · rw [hs2.2.2.2.2.2.2.2.1, hs1.2.2.2.2.2.2.2.1]
    · rw [hs2.2.2.2.2.2.2.2.2, hs1.2.2.2.2.2.2.2.2]
  refine ⟨?_, ?_, ?_⟩
  · rw [hout1, hout2]
    show finalize cfg stF2.acc = finalize cfg stF1.acc
    rw [hacc]
  · rw [hout1, hout3]
    show (finalize cfg stF3.acc).faturamento_bruto
      = (finalize cfg stF1.acc).faturamento_bruto + (finalize cfg stF1.acc).faturamento_bruto
    rw [(finalize_fixed cfg stF3.acc).1, (finalize_fixed cfg stF1.acc).1,
      hs3.2.1, hs1.2.1, totalParsedSum_append]
    show (0 : ℚ) + (totalParsedSum chunks + totalParsedSum chunks)
      = (0 : ℚ) + totalParsedSum chunks + ((0 : ℚ) + totalParsedSum chunks)
    ring
  · rw [hout1, hout3]
    show (finalize cfg stF3.acc).total_rows_itens
      = (finalize cfg stF1.acc).total_rows_itens + (finalize cfg stF1.acc).total_rows_itens
    rw [(finalize_fixed cfg stF3.acc).2.1, (finalize_fixed cfg stF1.acc).2.1,
      hs3.2.2.1, hs1.2.2.1, List.map_append, List.sum_append]
    show 0 + ((chunks.map chunkRowCount).sum + (chunks.map chunkRowCount).sum)
      = 0 + (chunks.map chunkRowCount).sum + (0 + (chunks.map chunkRowCount).sum)
    omega

/-- Counterexample for C7 as stated: swapping two batches (a
permutation) changes the region pivot — the first-processed batch is
joined against the positional index and never matches, so its region is
dropped; the accumulators agree but the buckets do not. -/
theorem claim7_counterexample :
    [chD1W, chD2W].Perm [chD2W, chD1W] ∧
    (process defaultConfig notasPW [chD1W, chD2W]).toOption.map
        (fun o => bLookup o.pivot_uf (.vstr "RJ")) = some (some 20) ∧
    (process defaultConfig notasPW [chD2W, chD1W]).toOption.map
        (fun o => bLookup o.pivot_uf (.vstr "RJ")) = some none := by
  decide

/-- Witness for C7 (amended): permuted and doubled runs over a concrete
stream. -/
theorem claim7_witness :
    wOut7b.resumo = wOut7.resumo ∧
    wOut7c.resumo.faturamento_bruto
      = wOut7.resumo.faturamento_bruto + wOut7.resumo.faturamento_bruto ∧
    wOut7c.resumo.total_rows_itens
      = wOut7.resumo.total_rows_itens + wOut7.resumo.total_rows_itens :=
  claim7_additivity_amended defaultConfig notasW [wChunkA, wChunkB] [wChunkB, wChunkA]
    n3W wOut7 wOut7b wOut7c (by decide) (by decide) (by decide)
    (by decide) (by decide) (by decide)

/-- C5, amended: the chunk amount column is resolved by the priority
list `valor_total`, `valor_item`, `valor` — NOT the parent's
`valor_total`, `valor`, `valor_nota`, `total` list (the counterexample
below shows a `total` column the parent list resolves and the chunk list
does not).  When it resolves to `vcol`, every row's amount is the parsed
value of its `vcol` cell.  When nothing resolves, the
`valor_unitario × quantidade` arm cannot fire — a `valor_unitario`
column would itself have been resolved by the `valor` fallback — so
every row's amount is `0.0`.  (The row-labelling hypotheses say the
chunk is a well-formed frame: rows are labelled by the column list and
no column is already named `valor_total_item`.) -/
theorem claim5_child_amount_amended (c c1 : DF)
    (hck : childKeyed c = some c1)
    (hw : ∀ r ∈ c1.rows, r.map Prod.fst = c1.cols)
    (hnc : ¬ "valor_total_item" ∈ c1.cols) :
    (∀ vcol df, childValorCol c1.cols = some vcol → prepFront c = .ok (some df) →
      df.rows.map (fun r => getV r "valor_total_item")
        = c1.rows.map (fun r => Val.vnum (parse_valor_brasileiro (getV r vcol)))) ∧
    (childValorCol c1.cols = none →
      ¬ c1.hasCol "valor_unitario" = true ∧
      ∀ df, prepFront c = .ok (some df) →
        df.rows.map (fun r => getV r "valor_total_item")
          = c1.rows.map (fun _ => Val.vnum 0)) := by
  constructor
  · intro vcol df hv hpf
    have hval : prepFront c = .ok (some ((c1.renameCol vcol "valor_total_item").applyCol
        "valor_total_item" (fun v => .vnum (parse_valor_brasileiro v)))) := by
      unfold prepFront
      simp only [hck, hv]
    rw [hval] at hpf
    injection hpf with hpf
    injection hpf with hpf
    subst hpf
    simp only [DF.applyCol, DF.setColF, DF.renameCol, List.map_map]
    refine List.map_congr_left (fun r hr => ?_)
    simp only [Function.comp]
    rw [getV_setV_self]
    have hnt : ∀ p ∈ r, ¬ p.1 = "valor_total_item" := by
      intro p hp he
      apply hnc
      rw [← hw r hr]
      exact he ▸ List.mem_map.2 ⟨p, hp, rfl⟩
    rw [getV_mapKeys_rename r vcol "valor_total_item" hnt]
  · intro hv
    obtain ⟨h1, h23⟩ := orElse_none _ _ hv
    obtain ⟨h2, h3⟩ := orElse_none _ _ h23
    have hnu : ¬ c1.hasCol "valor_unitario" = true := by
      intro hcu
      simp only [DF.hasCol, List.elem_iff] at hcu
      unfold find_best_column at h3
      obtain ⟨h3a, _⟩ := orElse_none _ _ h3
      have hfa := List.find?_eq_none.1 h3a "valor_unitario" hcu
      exact hfa (by decide)
    refine ⟨hnu, fun df hpf => ?_⟩
    have hval : prepFront c = .ok (some ((c1.setColF "valor_total_item"
        (fun _ => .vnum 0)).applyCol "valor_total_item"
        (fun v => .vnum (parse_valor_brasileiro v)))) := by
      unfold prepFront
      simp only [hck, hv]
      rw [if_neg]
      intro hand
      exact hnu hand.1
    rw [hval] at hpf
    injection hpf with hpf
    injection hpf with hpf
    subst hpf
    simp only [DF.applyCol, DF.setColF, List.map_map]
    refine List.map_congr_left (fun r hr => ?_)
    simp only [Function.comp]
    rw [getV_setV_self, getV_setV_self]
    rfl

/-- Counterexample for C5 as stated: a chunk whose only amount-like
column is `total`.  The parent's priority list resolves it (so the claim
predicts an amount of `100`), but the chunk's list does not, and the
run's revenue is `0`. -/
theorem claim5_counterexample :
    notasValorCol chTotW.normCols.cols = some "total" ∧
    childValorCol ((chTotW.normCols).renameCol "chave" "chave_acesso").cols = none ∧
    parse_valor_brasileiro (.vstr "100") = 100 ∧
    (process defaultConfig notasW [chTotW]).toOption.map
        (fun o => o.resumo.faturamento_bruto) = some 0 := by
  decide

/-- Witness for C5 (amended): the resolved-column branch at a concrete
chunk. -/
theorem claim5_witness :
    wC5out.rows.map (fun r => getV r "valor_total_item")
      = wChunkA.rows.map (fun r => Val.vnum (parse_valor_brasileiro (getV r "valor_total"))) :=
  (claim5_child_amount_amended wChunkA wChunkA (by decide) (by decide) (by decide)).1
    "valor_total" wC5out (by decide) (by decide)

/-- C10 (implicit behavior): on the first processed chunk of every run
the parent index's name is still `"chave_acesso"` (true of the initial
state), so the index is destructively replaced by stringified row
positions and the join is against those position strings: a first-batch
row whose stringified key is no position string receives only nulls on
the parent side.  All later chunks (the index name now `none`) are
joined by an ordinary column merge on the actual `chave_acesso` values. -/
theorem claim10_first_chunk_positional_join :
    (∀ n3 : DF, (initState n3).idx.iname = some "chave_acesso") ∧
    (∀ (idx : IDF) (c : DF), idx.iname = some "chave_acesso" →
      (mergeStep idx c).2 = ⟨idx.df, posIndex idx.df.rows.length, none⟩) ∧
    (∀ (idx : IDF) (c : DF), ¬ idx.iname = some "chave_acesso" →
      mergeStep idx c = (mergeOn c idx.df "chave_acesso", idx)) ∧
    (∀ (idx : IDF) (c : DF), idx.iname = some "chave_acesso" →
      (∀ r ∈ c.rows, ∀ i, i < idx.df.rows.length →
        ¬ pyStr (getV r "chave_acesso") = decStr i) →
      (mergeStep idx c).1.rows
        = (stringifyKey c).rows.map
            (fun lr => lr ++ nullRow (riCols (stringifyKey c) idx.df))) ∧
    (∀ (idx : IDF) (c : DF), idx.iname = none →
      (∀ r ∈ c.rows, ∀ pr ∈ idx.df.rows,
        ¬ getV pr "chave_acesso" = getV r "chave_acesso") →
      (mergeStep idx c).1.rows
        = c.rows.map (fun lr => lr ++ nullRow (onCols c idx.df "chave_acesso"))) := by
  refine ⟨fun n3 => rfl, ?_, ?_, ?_, ?_⟩
  · intro idx c h
    unfold mergeStep
    rw [if_pos h]
  · intro idx c h
    unfold mergeStep
    rw [if_neg h]
  · intro idx c h hkeys
    unfold mergeStep
    rw [if_pos h]
    refine mergeRightIndex_unmatched _ _ _ _ (fun lr hlr v hv he => ?_)
    simp only [posIndex, List.mem_map, List.mem_range] at hv
    obtain ⟨i, hi, rfl⟩ := hv
    simp only [stringifyKey, DF.applyCol, DF.setColF] at hlr
    obtain ⟨r0, hr0, rfl⟩ := List.mem_map.1 hlr
    rw [getV_setV_self] at he
    injection he with he
    exact hkeys r0 hr0 i hi he.symm
  · intro idx c h hkeys
    unfold mergeStep
    rw [if_neg (by rw [h]; simp)]
    exact mergeOn_unmatched c idx.df "chave_acesso"
      (fun lr hlr rr hrr => hkeys lr hlr rr hrr)

/-- Witness for C10: over a one-row parent (position string `"0"`), a
first chunk keyed `"Z9"` is joined entirely unmatched. -/
theorem claim10_witness :
    (mergeStep wIdx10 wCh10).1.rows
      = (stringifyKey wCh10).rows.map
          (fun lr => lr ++ nullRow (riCols (stringifyKey wCh10) wIdx10.df)) :=
  claim10_first_chunk_positional_join.2.2.2.1 wIdx10 wCh10 (by decide) (by decide)

end Apuracao
